import Mathlib

set_option maxRecDepth 100000

/-!
Verification of the rubric-management core of the `ai-video-analyzer`
repository (`rubric_helper.py`): the rubric validator, the rubric store
(save / load / backup / restore / listing) and the version-string helper.

Modelling conventions (shallow embedding of the Python source):

* JSON values are modelled by `JValue`.  Python floats are modelled as exact
  fractions (`Fr`, an unreduced `Int` numerator over a positive `Nat`
  denominator); floating-point rounding is not modelled, so decimal literals
  such as `0.5` denote the exact rationals they spell.
* Fallible Python code is modelled in `PyM α := Except String α`:
  `.error e` models an *uncaught* Python exception (`TypeError`,
  `AttributeError`, ...) escaping the function, `.ok` a normal return.
  Exceptions that the source catches (`try/except` around `float()` /
  `int()` coercions) are modelled by `Option`-valued coercions.
* File contents are modelled post-JSON-parse: the store (`FS`) maps a path
  (relative to the rubrics directory) to the parsed `JValue`.
  `json.dump`/`json.load` are inverse on JSON-representable data, so
  serialisation is the identity in the model.  I/O failures are injected
  through explicit oracles (`IOOracle`, `RestoreOracle`).
* Python `str` formatting of exotic values (float repr, list/dict repr,
  set repr ordering) is given a fixed deterministic rendering; no claim
  depends on those renderings.  Numeric-string parsing models the plain
  decimal forms accepted by Python's `float()` / `int()` (exotic forms such
  as underscores or exponents are not modelled).
-/

/-- Exact fraction modelling a Python float: numerator over positive
denominator.  All constructions in this file keep `den` positive. -/
structure Fr where
  num : Int
  den : Nat
deriving DecidableEq

def frOfInt (n : Int) : Fr := ⟨n, 1⟩

/-- Numeric equality of fractions (cross multiplication). -/
def frEq (a b : Fr) : Bool := a.num * (b.den : Int) == b.num * (a.den : Int)

/-- Numeric `≤` on fractions (cross multiplication; dens are positive). -/
def frLe (a b : Fr) : Bool := a.num * (b.den : Int) ≤ b.num * (a.den : Int)

/-- Numeric `<` on fractions. -/
def frLt (a b : Fr) : Bool := a.num * (b.den : Int) < b.num * (a.den : Int)

/-- Fraction addition (no reduction), modelling Python float `+` exactly. -/
def frAdd (a b : Fr) : Fr := ⟨a.num * (b.den : Int) + b.num * (a.den : Int), a.den * b.den⟩

/-- Truncation toward zero, modelling Python `int()` applied to a float. -/
def frTrunc (q : Fr) : Int :=
  (if q.num < 0 then -1 else 1) * ((q.num.natAbs / q.den : Nat) : Int)

/-- JSON-representable Python value. -/
inductive JValue where
  | null
  | bool (b : Bool)
  | int (n : Int)
  | float (q : Fr)
  | str (s : String)
  | arr (xs : List JValue)
  | obj (kvs : List (String × JValue))

abbrev Dict := List (String × JValue)

/-- Dictionary lookup (`d[k]` when the key is known present / `d.get(k)`). -/
def jlookup (kvs : Dict) (k : String) : Option JValue :=
  (kvs.find? (fun kv => kv.1 == k)).map (fun kv => kv.2)

/-- `d.get(k, default)`. -/
def jlookupD (kvs : Dict) (k : String) (d : JValue) : JValue :=
  (jlookup kvs k).getD d

/-- Python dict assignment `d[k] = v`: updates the key in place if present,
appends it otherwise. -/
def setKV : Dict → String → JValue → Dict
  | [], p, v => [(p, v)]
  | (k, w) :: rest, p, v =>
    if k == p then (k, v) :: rest else (k, w) :: setKV rest p v

def hasKey (kvs : Dict) (k : String) : Bool := kvs.any (fun kv => kv.1 == k)

/-- Python hashability: lists and dicts are unhashable; using them as set
elements raises `TypeError`. -/
def hashable : JValue → Bool
  | .arr _ => false
  | .obj _ => false
  | _ => true

/-- The numeric view Python's `==` uses: ints, floats and bools compare as
numbers (`True == 1`, `10 == 10.0`). -/
def asNum : JValue → Option Fr
  | .int n => some (frOfInt n)
  | .float q => some q
  | .bool b => some (frOfInt (if b then 1 else 0))
  | _ => none

/-- Fuel-bounded core of Python `==` for nested containers (recursion is on
the fuel, so the definition is structural).  `pyEq` passes fuel exceeding the
values' size, so it never runs out on actual values. -/
def pyEqFuel : Nat → JValue → JValue → Bool
  | 0, _, _ => false
  | n + 1, a, b =>
    match a, b with
    | .str x, .str y => x == y
    | .null, .null => true
    | .arr xs, .arr ys =>
      xs.length == ys.length && (xs.zip ys).all (fun p => pyEqFuel n p.1 p.2)
    | .obj xs, .obj ys =>
      xs.length == ys.length &&
      xs.all (fun kv =>
        match jlookup ys kv.1 with
        | some w => pyEqFuel n kv.2 w
        | none => false)
    | x, y =>
      match asNum x, asNum y with
      | some u, some v => frEq u v
      | _, _ => false

mutual

def jsize : JValue → Nat
  | .arr xs => jsizeList xs + 1
  | .obj kvs => jsizeKVs kvs + 1
  | _ => 1

def jsizeList : List JValue → Nat
  | [] => 0
  | x :: xs => jsize x + jsizeList xs + 1

def jsizeKVs : List (String × JValue) → Nat
  | [] => 0
  | kv :: rest => jsize kv.2 + jsizeKVs rest + 1

end

/-- Python equality `==` between JSON values: numeric across int/float/bool,
structural on strings/lists/dicts (dicts order-insensitively).  Comparisons
where at least one side is not a container are dispatched directly; only a
container-container comparison recurses (through sufficient fuel). -/
def pyEq (a b : JValue) : Bool :=
  match a, b with
  | .arr _, .arr _ => pyEqFuel (jsize a + jsize b + 1) a b
  | .obj _, .obj _ => pyEqFuel (jsize a + jsize b + 1) a b
  | .str x, .str y => x == y
  | .null, .null => true
  | x, y =>
    match asNum x, asNum y with
    | some u, some v => frEq u v
    | _, _ => false

/-- Simplified Python `str()` rendering, used where the source interpolates a
value into an f-string.  Exact for strings, ints, bools and None (the only
cases the modelled claims exercise); floats/lists/dicts get a fixed
deterministic rendering. -/
def pyStrOf : JValue → String
  | .str s => s
  | .int n => toString n
  | .bool true => "True"
  | .bool false => "False"
  | .null => "None"
  | .float q => toString q.num ++ "/" ++ toString q.den
  | .arr _ => "[...]"
  | .obj _ => "\x7b...\x7d"

/-- `"%.4f"`-style rendering of a fraction (round half away from handled as
half-up; the modelled claims only format exactly representable values). -/
def format4 (q : Fr) : String :=
  let n : Int := Int.fdiv (20000 * q.num + (q.den : Int)) (2 * (q.den : Int))
  let sign := if n < 0 then "-" else ""
  let a := n.natAbs
  let ip := a / 10000
  let fp := a % 10000
  let fps := toString fp
  sign ++ toString ip ++ "." ++ (⟨List.replicate (4 - fps.length) '0'⟩ ++ fps)

/- ### Numeric-string parsing (Python `int(s)` / `float(s)` on plain
decimal literals) -/

def chTrim (s : List Char) : List Char :=
  ((s.dropWhile (fun c => c.isWhitespace)).reverse.dropWhile
    (fun c => c.isWhitespace)).reverse

def natOfDigits (s : List Char) : Nat :=
  s.foldl (fun a c => a * 10 + (c.toNat - 48)) 0

def allDigits (s : List Char) : Bool := !s.isEmpty && s.all (fun c => c.isDigit)

/-- Sign splitting shared by the two parsers. -/
def splitSign : List Char → (Bool × List Char)
  | '-' :: rest => (true, rest)
  | '+' :: rest => (false, rest)
  | s => (false, s)

/-- Python `int(s)` on a decimal literal. -/
def pyParseInt (s : String) : Option Int :=
  let (neg, body) := splitSign (chTrim s.data)
  if allDigits body then
    some (if neg then -(natOfDigits body : Int) else (natOfDigits body : Int))
  else none

/-- Split a character list at '.' separators. -/
def splitDot : List Char → List Char → List (List Char)
  | [], acc => [acc.reverse]
  | c :: rest, acc =>
    if c = '.' then acc.reverse :: splitDot rest [] else splitDot rest (c :: acc)

/-- Python `float(s)` on a plain decimal literal (`d+`, `d+.d*`, `.d+`). -/
def pyParseFloat (s : String) : Option Fr :=
  let (neg, body) := splitSign (chTrim s.data)
  let sgn : Int := if neg then -1 else 1
  match splitDot body [] with
  | [ip] =>
    if allDigits ip then some ⟨sgn * (natOfDigits ip : Int), 1⟩ else none
  | [ip, fp] =>
    if (ip.isEmpty || ip.all (fun c => c.isDigit)) &&
       (fp.isEmpty || fp.all (fun c => c.isDigit)) &&
       !(ip.isEmpty && fp.isEmpty) then
      some ⟨sgn * ((natOfDigits ip : Int) * (10 ^ fp.length : Nat) + (natOfDigits fp : Nat)),
            10 ^ fp.length⟩
    else none
  | _ => none

/-- Python `float(v)`; `none` models the `TypeError`/`ValueError` that the
source catches. -/
def pyFloat : JValue → Option Fr
  | .int n => some (frOfInt n)
  | .float q => some q
  | .bool b => some (frOfInt (if b then 1 else 0))
  | .str s => pyParseFloat s
  | _ => none

/-- Python `int(v)`; `none` models the `TypeError`/`ValueError` that the
source catches. -/
def pyInt : JValue → Option Int
  | .int n => some n
  | .bool b => some (if b then 1 else 0)
  | .float q => some (frTrunc q)
  | .str s => pyParseInt s
  | _ => none

/- ### Python membership / subscription, with uncaught exceptions -/

abbrev PyM (α : Type) := Except String α

def chPrefixOf : List Char → List Char → Bool
  | [], _ => true
  | _ :: _, [] => false
  | a :: as, b :: bs => a == b && chPrefixOf as bs

def chSuffixOf (s t : List Char) : Bool := chPrefixOf s.reverse t.reverse

def chInfixOf : List Char → List Char → Bool
  | n, [] => n.isEmpty
  | n, c :: rest => chPrefixOf n (c :: rest) || chInfixOf n rest

/-- Python `needle in v` for a string needle: dict key test, list element
test, substring test; `TypeError` on non-iterables. -/
def pyMemStr (needle : String) (v : JValue) : PyM Bool :=
  match v with
  | .obj kvs => .ok (kvs.any (fun kv => kv.1 == needle))
  | .arr xs => .ok (xs.any (fun x => pyEq x (.str needle)))
  | .str s => .ok (chInfixOf needle.data s.data)
  | _ => .error "TypeError: argument of type is not iterable"

/-- Python subscription `v[k]` with a string key: `TypeError` unless `v` is a
dict, `KeyError` if the key is absent. -/
def pyGetStr (v : JValue) (k : String) : PyM JValue :=
  match v with
  | .obj kvs =>
    match jlookup kvs k with
    | some x => .ok x
    | none => .error ("KeyError: " ++ k)
  | _ => .error "TypeError: not subscriptable"

/-- `all(key in v for key in keys)`: short-circuiting generator, so a
`TypeError` from a non-iterable `v` surfaces at the first membership test. -/
def allMem (keys : List String) (v : JValue) : PyM Bool :=
  match keys with
  | [] => .ok true
  | k :: rest =>
    match pyMemStr k v with
    | .error e => .error e
    | .ok b => if b then allMem rest v else .ok false

/-- The required keys absent from a dict (`required - set(d.keys())`),
rendered in the canonical order of the required list (Python renders the set
in unspecified order; no claim depends on the rendering). -/
def missingOf (keys : List String) (kvs : Dict) : List String :=
  keys.filter (fun k => !(hasKey kvs k))

def renderStrSet (l : List String) : String :=
  "\x7b" ++ String.intercalate ", " (l.map (fun s => "\x27" ++ s ++ "\x27")) ++ "\x7d"


/- ### `validate_rubric` (src/rubric_helper.py lines 52-208) -/

abbrev VResult := Bool × Option String

def msgNeitherFormat : String :=
  "Rubric must have either \x27categories\x27 (new format) or \x27criteria\x27 (old format)"

def msgMissingKeys (missing : List String) : String :=
  "Missing required keys: " ++ renderStrSet missing

def msgCatMissingFields (i : Nat) (missing : List String) : String :=
  "Category " ++ toString i ++ " missing required fields: " ++ renderStrSet missing

def msgDupCat (cid : JValue) : String :=
  "Duplicate category ID: " ++ pyStrOf cid

def msgCatWeightRange (cid : JValue) : String :=
  "Category \x27" ++ pyStrOf cid ++ "\x27 weight must be between 0 and 1"

def msgCatWeightNum (cid : JValue) : String :=
  "Category \x27" ++ pyStrOf cid ++ "\x27 weight must be a number"

def msgCatMaxPointsPos (cid : JValue) : String :=
  "Category \x27" ++ pyStrOf cid ++ "\x27 max_points must be positive"

def msgCatMaxPointsInt (cid : JValue) : String :=
  "Category \x27" ++ pyStrOf cid ++ "\x27 max_points must be a positive integer"

def msgCatCriteriaList (cid : JValue) : String :=
  "Category \x27" ++ pyStrOf cid ++ "\x27 criteria must be a non-empty list"

def msgCritMissingFields (cid : JValue) (j : Nat) (missing : List String) : String :=
  "Category \x27" ++ pyStrOf cid ++ "\x27 criterion " ++ toString j ++
    " missing required fields: " ++ renderStrSet missing

def msgDupCrit (cid crid : JValue) : String :=
  "Duplicate criterion ID in category \x27" ++ pyStrOf cid ++ "\x27: " ++ pyStrOf crid

def msgCritMaxPointsPos (crid : JValue) : String :=
  "Criterion \x27" ++ pyStrOf crid ++ "\x27 max_points must be positive"

def msgCritMaxPointsInt (crid : JValue) : String :=
  "Criterion \x27" ++ pyStrOf crid ++ "\x27 max_points must be a positive integer"

def msgSumMismatch (cid mpv : JValue) (pts : Int) : String :=
  "Category \x27" ++ pyStrOf cid ++ "\x27 max_points (" ++ pyStrOf mpv ++
    ") doesn\x27t match sum of criteria points (" ++ toString pts ++ ")"

def msgCatWeightSum (tw : Fr) : String :=
  "Category weights must sum to 1.0 (current sum: " ++ format4 tw ++ ")"

def msgLegacyMissingFields (i : Nat) (missing : List String) : String :=
  "Criterion " ++ toString i ++ " missing required fields: " ++ renderStrSet missing

def msgLegacyDup (cid : JValue) : String :=
  "Duplicate criterion ID: " ++ pyStrOf cid

def msgLegacyWeightRange (cid : JValue) : String :=
  "Criterion \x27" ++ pyStrOf cid ++ "\x27 weight must be between 0 and 1"

def msgLegacyWeightNum (cid : JValue) : String :=
  "Criterion \x27" ++ pyStrOf cid ++ "\x27 weight must be a number"

def msgLegacyWeightSum (tw : Fr) : String :=
  "Criterion weights must sum to 1.0 (current sum: " ++ format4 tw ++ ")"

def requiredTopKeysNew : List String := ["categories", "scale", "overall_method", "thresholds"]
def requiredTopKeysOld : List String := ["criteria", "scale", "overall_method", "thresholds"]
def requiredCatFields : List String := ["category_id", "label", "weight", "max_points", "criteria"]
def requiredCritFields : List String := ["criterion_id", "label", "desc", "max_points"]
def requiredLegacyFields : List String := ["id", "label", "desc", "weight"]

/-- One iteration of the inner criterion loop (source lines 115-134).
`.inl` models an early `return`, `.inr` the updated loop state
(seen criterion ids, accumulated category points). -/
def checkCriterion (cid : JValue) (j : Nat) (criterion : JValue)
    (seen : List JValue) (pts : Int) : PyM (Sum VResult (List JValue × Int)) :=
  match allMem requiredCritFields criterion with
  | .error e => .error e
  | .ok present =>
    if !present then
      match criterion with
      | .obj ckvs =>
        .ok (.inl (false, some (msgCritMissingFields cid j (missingOf requiredCritFields ckvs))))
      | _ => .error "AttributeError: keys"
    else
      match pyGetStr criterion "criterion_id" with
      | .error e => .error e
      | .ok crid =>
        if !(hashable crid) then .error "TypeError: unhashable type"
        else if seen.any (fun x => pyEq x crid) then
          .ok (.inl (false, some (msgDupCrit cid crid)))
        else
          match pyGetStr criterion "max_points" with
          | .error e => .error e
          | .ok mpv =>
            match pyInt mpv with
            | none => .ok (.inl (false, some (msgCritMaxPointsInt crid)))
            | some mp =>
              if mp ≤ 0 then .ok (.inl (false, some (msgCritMaxPointsPos crid)))
              else .ok (.inr (crid :: seen, pts + mp))

def critLoop (cid : JValue) : List JValue → Nat → List JValue → Int →
    PyM (Sum VResult (List JValue × Int))
  | [], _, seen, pts => .ok (.inr (seen, pts))
  | c :: rest, j, seen, pts =>
    match checkCriterion cid j c seen pts with
    | .error e => .error e
    | .ok (.inl r) => .ok (.inl r)
    | .ok (.inr st) => critLoop cid rest (j + 1) st.1 st.2

/-- One iteration of the category loop (source lines 80-138). -/
def checkCategory (i : Nat) (category : JValue) (seen : List JValue) (tw : Fr) :
    PyM (Sum VResult (List JValue × Fr)) :=
  match allMem requiredCatFields category with
  | .error e => .error e
  | .ok present =>
    if !present then
      match category with
      | .obj ckvs =>
        .ok (.inl (false, some (msgCatMissingFields i (missingOf requiredCatFields ckvs))))
      | _ => .error "AttributeError: keys"
    else
      match pyGetStr category "category_id" with
      | .error e => .error e
      | .ok cid =>
        if !(hashable cid) then .error "TypeError: unhashable type"
        else if seen.any (fun x => pyEq x cid) then
          .ok (.inl (false, some (msgDupCat cid)))
        else
          match pyGetStr category "weight" with
          | .error e => .error e
          | .ok wv =>
            match pyFloat wv with
            | none => .ok (.inl (false, some (msgCatWeightNum cid)))
            | some w =>
              if frLt w ⟨0, 1⟩ || frLt ⟨1, 1⟩ w then
                .ok (.inl (false, some (msgCatWeightRange cid)))
              else
                match pyGetStr category "max_points" with
                | .error e => .error e
                | .ok mpv =>
                  match pyInt mpv with
                  | none => .ok (.inl (false, some (msgCatMaxPointsInt cid)))
                  | some mp =>
                    if mp ≤ 0 then .ok (.inl (false, some (msgCatMaxPointsPos cid)))
                    else
                      match pyGetStr category "criteria" with
                      | .error e => .error e
                      | .ok critv =>
                        match critv with
                        | .arr critList =>
                          if critList.isEmpty then
                            .ok (.inl (false, some (msgCatCriteriaList cid)))
                          else
                            match critLoop cid critList 0 [] 0 with
                            | .error e => .error e
                            | .ok (.inl r) => .ok (.inl r)
                            | .ok (.inr st) =>
                              if !(pyEq (.int st.2) mpv) then
                                .ok (.inl (false, some (msgSumMismatch cid mpv st.2)))
                              else .ok (.inr (cid :: seen, frAdd tw w))
                        | _ => .ok (.inl (false, some (msgCatCriteriaList cid)))

def catLoop : List JValue → Nat → List JValue → Fr →
    PyM (Sum VResult (List JValue × Fr))
  | [], _, seen, tw => .ok (.inr (seen, tw))
  | c :: rest, i, seen, tw =>
    match checkCategory i c seen tw with
    | .error e => .error e
    | .ok (.inl r) => .ok (.inl r)
    | .ok (.inr st) => catLoop rest (i + 1) st.1 st.2

/-- Hierarchical-format block (source lines 67-142).  `.ok none` means the
block fell through to the common checks; `.ok (some r)` an early return. -/
def validateNewFormat (rubric : JValue) : PyM (Option VResult) :=
  match allMem requiredTopKeysNew rubric with
  | .error e => .error e
  | .ok present =>
    if !present then
      match rubric with
      | .obj kvs => .ok (some (false, some (msgMissingKeys (missingOf requiredTopKeysNew kvs))))
      | _ => .error "AttributeError: keys"
    else
      match pyGetStr rubric "categories" with
      | .error e => .error e
      | .ok cats =>
        match cats with
        | .arr catList =>
          if catList.isEmpty then .ok (some (false, some "categories must be a non-empty list"))
          else
            match catLoop catList 0 [] ⟨0, 1⟩ with
            | .error e => .error e
            | .ok (.inl r) => .ok (some r)
            | .ok (.inr st) =>
              if !(frLe ⟨99, 100⟩ st.2 && frLe st.2 ⟨101, 100⟩) then
                .ok (some (false, some (msgCatWeightSum st.2)))
              else .ok none
        | _ => .ok (some (false, some "categories must be a non-empty list"))

/-- One iteration of the legacy criterion loop (source lines 157-176). -/
def checkLegacyCriterion (i : Nat) (criterion : JValue) (seen : List JValue) (tw : Fr) :
    PyM (Sum VResult (List JValue × Fr)) :=
  match allMem requiredLegacyFields criterion with
  | .error e => .error e
  | .ok present =>
    if !present then
      match criterion with
      | .obj ckvs =>
        .ok (.inl (false, some (msgLegacyMissingFields i (missingOf requiredLegacyFields ckvs))))
      | _ => .error "AttributeError: keys"
    else
      match pyGetStr criterion "id" with
      | .error e => .error e
      | .ok cid =>
        if !(hashable cid) then .error "TypeError: unhashable type"
        else if seen.any (fun x => pyEq x cid) then
          .ok (.inl (false, some (msgLegacyDup cid)))
        else
          match pyGetStr criterion "weight" with
          | .error e => .error e
          | .ok wv =>
            match pyFloat wv with
            | none => .ok (.inl (false, some (msgLegacyWeightNum cid)))
            | some w =>
              if frLt w ⟨0, 1⟩ || frLt ⟨1, 1⟩ w then
                .ok (.inl (false, some (msgLegacyWeightRange cid)))
              else .ok (.inr (cid :: seen, frAdd tw w))

def legacyLoop : List JValue → Nat → List JValue → Fr →
    PyM (Sum VResult (List JValue × Fr))
  | [], _, seen, tw => .ok (.inr (seen, tw))
  | c :: rest, i, seen, tw =>
    match checkLegacyCriterion i c seen tw with
    | .error e => .error e
    | .ok (.inl r) => .ok (.inl r)
    | .ok (.inr st) => legacyLoop rest (i + 1) st.1 st.2

/-- Legacy-format block (source lines 144-180). -/
def validateOldFormat (rubric : JValue) : PyM (Option VResult) :=
  match allMem requiredTopKeysOld rubric with
  | .error e => .error e
  | .ok present =>
    if !present then
      match rubric with
      | .obj kvs => .ok (some (false, some (msgMissingKeys (missingOf requiredTopKeysOld kvs))))
      | _ => .error "AttributeError: keys"
    else
      match pyGetStr rubric "criteria" with
      | .error e => .error e
      | .ok crits =>
        match crits with
        | .arr critList =>
          if critList.isEmpty then .ok (some (false, some "criteria must be a non-empty list"))
          else
            match legacyLoop critList 0 [] ⟨0, 1⟩ with
            | .error e => .error e
            | .ok (.inl r) => .ok (some r)
            | .ok (.inr st) =>
              if !(frLe ⟨99, 100⟩ st.2 && frLe st.2 ⟨101, 100⟩) then
                .ok (some (false, some (msgLegacyWeightSum st.2)))
              else .ok none
        | _ => .ok (some (false, some "criteria must be a non-empty list"))

/-- Scale and threshold checks shared by both formats (source lines 182-208). -/
def commonChecks (rubric : JValue) : PyM VResult :=
  match pyGetStr rubric "scale" with
  | .error e => .error e
  | .ok scale =>
    match scale with
    | .obj skvs =>
      if !(hasKey skvs "min") || !(hasKey skvs "max") then
        .ok (false, some "scale must have \x27min\x27 and \x27max\x27 keys")
      else
        match jlookup skvs "min", jlookup skvs "max" with
        | some mnv, some mxv =>
          match pyFloat mnv with
          | none => .ok (false, some "scale min and max must be numbers")
          | some mn =>
            match pyFloat mxv with
            | none => .ok (false, some "scale min and max must be numbers")
            | some mx =>
              if frLe mx mn then .ok (false, some "scale min must be less than max")
              else
                match pyGetStr rubric "thresholds" with
                | .error e => .error e
                | .ok thresholds =>
                  match thresholds with
                  | .obj tkvs =>
                    if !(hasKey tkvs "pass") || !(hasKey tkvs "revise") then
                      .ok (false, some "thresholds must have \x27pass\x27 and \x27revise\x27 keys")
                    else
                      match jlookup tkvs "pass", jlookup tkvs "revise" with
                      | some pv, some rv =>
                        match pyFloat pv with
                        | none => .ok (false, some "thresholds must be numbers")
                        | some pq =>
                          match pyFloat rv with
                          | none => .ok (false, some "thresholds must be numbers")
                          | some rq =>
                            if frLe pq rq then
                              .ok (false, some "revise threshold must be less than pass threshold")
                            else .ok (true, none)
                      | _, _ => .error "KeyError: thresholds"
                  | _ => .ok (false, some "thresholds must be a dict")
        | _, _ => .error "KeyError: scale"
    | _ => .ok (false, some "scale must be a dict")

/-- `validate_rubric(rubric)` (source lines 52-208).  `.error` models an
uncaught Python exception escaping the function. -/
def validate_rubric (rubric : JValue) : PyM VResult :=
  match pyMemStr "categories" rubric with
  | .error e => .error e
  | .ok is_new_format =>
    match pyMemStr "criteria" rubric with
    | .error e => .error e
    | .ok is_old_format =>
      if !is_new_format && !is_old_format then
        .ok (false, some msgNeitherFormat)
      else if is_new_format then
        match validateNewFormat rubric with
        | .error e => .error e
        | .ok (some r) => .ok r
        | .ok none => commonChecks rubric
      else
        match validateOldFormat rubric with
        | .error e => .error e
        | .ok (some r) => .ok r
        | .ok none => commonChecks rubric

/- ### The rubric store (src/rubric_helper.py lines 211-426) -/

/-- The rubric store: paths relative to the rubrics directory mapped to the
parsed JSON content of the file.  The current rubric for `name` lives at
`name ++ ".json"`, backups at `versions/name.v{version}.{timestamp}.json`. -/
structure FS where
  files : List (String × JValue)

def emptyFS : FS := ⟨[]⟩

def fileAt (fs : FS) (p : String) : Option JValue :=
  (fs.files.find? (fun kv => kv.1 == p)).map (fun kv => kv.2)

def setFile (fs : FS) (p : String) (v : JValue) : FS := ⟨setKV fs.files p v⟩

/-- Failure injection for the I/O steps of `save_rubric_to_file`; a `true`
field makes the corresponding operation raise.  The source catches every
backup-phase failure and prints a warning; only the final write's failure
reaches the return value. -/
structure IOOracle where
  mkVersionsDirFails : Bool
  readCurrentFails : Bool
  copyFails : Bool
  readBackupFails : Bool
  writeBackupFails : Bool
  finalWriteFails : Bool

def ioOk : IOOracle := ⟨false, false, false, false, false, false⟩

/-- `load_rubric_from_file(filename)` (source lines 216-231): returns
`(rubric, error)`. -/
def load_rubric_from_file (filename : String) (fs : FS) :
    Option JValue × Option String :=
  match fileAt fs (filename ++ ".json") with
  | none => (none, some ("Rubric file not found: " ++ filename ++ ".json"))
  | some v => (some v, none)

/-- The backup block of `save_rubric_to_file` (source lines 242-280), reached
when `create_backup` holds and the canonical file exists.  The whole block is
wrapped in `try/except`, so every failure leaves the function running; the
returned store reflects whatever writes happened before the failure. -/
def backup_step (filename ts : String) (io : IOOracle) (fs : FS) : FS :=
  if io.mkVersionsDirFails then fs
  else
    let current_version : String :=
      if io.readCurrentFails then "unknown"
      else
        match fileAt fs (filename ++ ".json") with
        | some (.obj kvs) => pyStrOf (jlookupD kvs "version" (.str "1.0"))
        | _ => "unknown"
    let backup_path :=
      "versions/" ++ (filename ++ ".v" ++ current_version ++ "." ++ ts ++ ".json")
    if io.copyFails then fs
    else
      match fileAt fs (filename ++ ".json") with
      | none => fs
      | some c =>
        let fs1 := setFile fs backup_path c
        if io.readBackupFails then fs1
        else
          match c with
          | .obj kvs =>
            if io.writeBackupFails then fs1
            else setFile fs1 backup_path (.obj (setKV kvs "status" (.str "archive")))
          | _ => fs1

/-- `save_rubric_to_file(rubric, filename, create_backup)` (source lines
234-287): returns the `(success, error)` pair together with the updated
store. -/
def save_rubric_to_file (rubric : JValue) (filename : String)
    (create_backup : Bool) (ts : String) (io : IOOracle) (fs : FS) :
    (Bool × Option String) × FS :=
  let canonical := filename ++ ".json"
  let fs1 :=
    if create_backup && (fileAt fs canonical).isSome then
      backup_step filename ts io fs
    else fs
  if io.finalWriteFails then
    ((false, some ("Error saving to " ++ canonical)), fs1)
  else
    ((true, none), setFile fs1 canonical rubric)

/-- `increment_version(current_version)` (source lines 290-305). -/
def increment_version (current_version : String) : String :=
  let parts := (splitDot current_version.data []).map (fun l => (⟨l⟩ : String))
  match parts with
  | major :: minor :: _ =>
    match pyParseInt minor with
    | some m => major ++ "." ++ toString (m + 1)
    | none => current_version ++ ".1"
  | _ => current_version ++ ".1"

/-- Failure injection for `restore_rubric_version`. -/
structure RestoreOracle where
  loadFails : Bool
  writeFails : Bool

def restoreOk : RestoreOracle := ⟨false, false⟩

/-- Does a path name a direct child of the versions directory matching the
glob `versions/{stem}.*`-style pattern `pre*{suf}`? -/
def globMatch (pre suf p : String) : Bool :=
  chPrefixOf pre.data p.data && chSuffixOf suf.data (p.data.drop pre.data.length)

/-- `restore_rubric_version(filename, version)` (source lines 395-426).
`.error` models the uncaught `TypeError` raised when the backup's JSON
content is not a dict (`rubric['status'] = ...` on a non-dict). -/
def restore_rubric_version (filename version : String) (ro : RestoreOracle)
    (fs : FS) : PyM ((Bool × Option String) × FS) :=
  let pre := "versions/" ++ (filename ++ ".v" ++ version ++ ".")
  match fs.files.filter (fun kv => globMatch pre ".json" kv.1) with
  | [] => .ok ((false, some ("No backup found for version " ++ version)), fs)
  | (_, c) :: _ =>
    if ro.loadFails then .ok ((false, some "Error loading backup"), fs)
    else
      match c with
      | .obj kvs =>
        let restored : JValue := .obj (setKV kvs "status" (.str "current"))
        if ro.writeFails then .ok ((false, some "Error restoring"), fs)
        else .ok ((true, none), setFile fs (filename ++ ".json") restored)
      | _ => .error "TypeError: item assignment"

/-- Insertion sort by path, modelling `sorted(rubrics_dir.glob(...))`. -/
def insertByKey (kv : String × JValue) : List (String × JValue) → List (String × JValue)
  | [] => [kv]
  | kv' :: rest =>
    if kv.1 < kv'.1 then kv :: kv' :: rest else kv' :: insertByKey kv rest

def sortByKey : List (String × JValue) → List (String × JValue)
  | [] => []
  | kv :: rest => insertByKey kv (sortByKey rest)

/-- A path directly inside the rubrics directory matching `*.json`. -/
def isTopLevelJson (p : String) : Bool :=
  !(p.data.any (fun c => c = '/')) && chSuffixOf ".json".data p.data

/-- `rubric_file.stem`: the filename without its `.json` extension. -/
def stemOf (p : String) : String := ⟨p.data.take (p.data.length - 5)⟩

/-- One listing entry: Python builds `{'filename': ..., 'name': ...,
'description': ...}` where name/description keep whatever JSON value the
file held. -/
structure RubricEntry where
  filename : String
  name : JValue
  description : JValue

/-- Loop body of `list_available_rubrics` for one file at path `p` with
parsed content `v`: skip when validation raises (the `except` clause), when
invalid, or when not marked `current` (`.get('status')` on a non-dict
raises `AttributeError`, also caught). -/
def listEntryOf (p : String) (v : JValue) : Option RubricEntry :=
  match validate_rubric v with
  | .error _ => none
  | .ok (is_valid, _) =>
    if !is_valid then none
    else
      match v with
      | .obj kvs =>
        if pyEq (jlookupD kvs "status" .null) (.str "current") then
          some ⟨stemOf p,
                jlookupD kvs "name" (.str (stemOf p)),
                jlookupD kvs "description" (.str "No description available")⟩
        else none
      | _ => none

/-- `list_available_rubrics()` (source lines 308-339): scan the rubric
directory's `*.json` files in sorted order, keep the valid ones marked
`current`, and guarantee the built-in sample entry. -/
def list_available_rubrics (fs : FS) : List RubricEntry :=
  let files := sortByKey (fs.files.filter (fun kv => isTopLevelJson kv.1))
  let available := files.filterMap (fun kv => listEntryOf kv.1 kv.2)
  if available.any (fun r => r.filename == "sample-rubric") then available
  else ⟨"sample-rubric", .str "Sample Rubric", .str "Built-in sample rubric"⟩ :: available

/- ### Spec-side summation definitions (used only to state claims) -/

/-- Spec-side sum of a criteria list's `max_points` (as `int()`-coerced by
the validator), threaded through an accumulator exactly as the source's
loop accumulates `category_points`.  `none` when an entry is not a dict or
its `max_points` is absent or non-coercible. -/
def specCritPtsSum : List JValue → Int → Option Int
  | [], acc => some acc
  | c :: rest, acc =>
    match c with
    | .obj kvs =>
      match jlookup kvs "max_points" with
      | some v =>
        match pyInt v with
        | some m => specCritPtsSum rest (acc + m)
        | none => none
      | none => none
    | _ => none

/-- Spec-side sum of the `weight` fields of a list of categories (or legacy
criteria), `float()`-coerced, accumulated exactly as the source's
`total_weight`. -/
def specTopWeightSum : List JValue → Fr → Option Fr
  | [], acc => some acc
  | c :: rest, acc =>
    match c with
    | .obj kvs =>
      match jlookup kvs "weight" with
      | some v =>
        match pyFloat v with
        | some w => specTopWeightSum rest (frAdd acc w)
        | none => none
      | none => none
    | _ => none

/-- The claim-C2 consistency property of one category: its declared
`max_points` equals (under Python `==`) the sum of its criteria's
`max_points`. -/
def catPointsConsistent (cat : JValue) : Prop :=
  ∃ kvs mpv cs pts, cat = .obj kvs ∧
    jlookup kvs "max_points" = some mpv ∧
    jlookup kvs "criteria" = some (.arr cs) ∧
    specCritPtsSum cs 0 = some pts ∧
    pyEq (.int pts) mpv = true

/- ### Concrete fixtures -/

def mkCrit (cid : String) (pts : Int) : JValue :=
  .obj [("criterion_id", .str cid), ("label", .str "L"), ("desc", .str "D"),
        ("max_points", .int pts)]

def mkCat (cid : String) (w : Fr) (pts : Int) (crits : List JValue) : JValue :=
  .obj [("category_id", .str cid), ("label", .str "C"), ("weight", .float w),
        ("max_points", .int pts), ("criteria", .arr crits)]

def stdScale : JValue := .obj [("min", .int 0), ("max", .int 10)]
def stdThresholds : JValue := .obj [("pass", .int 7), ("revise", .int 5)]

def goodKvs : Dict :=
  [("categories", .arr [mkCat "c1" ⟨1, 1⟩ 10 [mkCrit "k1" 10]]),
   ("scale", stdScale), ("overall_method", .str "total_points"),
   ("thresholds", stdThresholds)]

/-- A structurally valid hierarchical rubric that ALSO carries a top-level
`criteria` key. -/
def bothKeysRubric : JValue :=
  .obj (("criteria", .null) :: goodKvs)

/-- Category declares 10 points but its criteria sum to 8. -/
def mismatchRubric : JValue :=
  .obj [("categories", .arr [mkCat "c1" ⟨1, 1⟩ 10 [mkCrit "k1" 5, mkCrit "k2" 3]]),
        ("scale", stdScale), ("overall_method", .str "total_points"),
        ("thresholds", stdThresholds)]

/-- Category weights 0.5 and 0.4 (sum 0.9, outside [0.99, 1.01]). -/
def badWeightRubric : JValue :=
  .obj [("categories", .arr [mkCat "c1" ⟨1, 2⟩ 5 [mkCrit "k1" 5],
                             mkCat "c2" ⟨2, 5⟩ 5 [mkCrit "k2" 5]]),
        ("scale", stdScale), ("overall_method", .str "total_points"),
        ("thresholds", stdThresholds)]

/-- A dictionary input on which `validate_rubric` raises: the single category
is the integer 5, so `"category_id" in category` raises `TypeError`. -/
def raisingRubric : JValue :=
  .obj [("categories", .arr [.int 5]), ("scale", .int 0),
        ("overall_method", .int 0), ("thresholds", .int 0)]

example : validate_rubric (.obj goodKvs) = .ok (true, none) := rfl
example : validate_rubric bothKeysRubric = .ok (true, none) := rfl
example : validate_rubric mismatchRubric =
    .ok (false, some (msgSumMismatch (.str "c1") (.int 10) 8)) := rfl
example : validate_rubric badWeightRubric =
    .ok (false, some (msgCatWeightSum ⟨9, 10⟩)) := rfl
example : msgCatWeightSum ⟨9, 10⟩ =
    "Category weights must sum to 1.0 (current sum: 0.9000)" := rfl
example : validate_rubric raisingRubric =
    .error "TypeError: argument of type is not iterable" := rfl
example : increment_version "1.0" = "1.1" := rfl
example : increment_version "2.9" = "2.10" := rfl
example : increment_version "v" = "v.1" := rfl
example : increment_version "1.2.3" = "1.3" := rfl

/- ### Basic store lemmas -/

theorem fileAt_setFile_self (fs : FS) (p : String) (v : JValue) :
    fileAt (setFile fs p v) p = some v := by
  show fileAt ⟨setKV fs.files p v⟩ p = some v
  unfold fileAt
  induction fs.files with
  | nil => simp [setKV]
  | cons kv rest ih =>
    by_cases h : kv.1 == p
    · cases kv with
      | mk k w => simp only [setKV] at *; rw [if_pos h]; simp [List.find?, h]
    · cases kv with
      | mk k w =>
        simp only [setKV] at *
        rw [if_neg h]
        simp only [List.find?, h]
        exact ih

theorem fileAt_setFile_ne (fs : FS) (p p' : String) (v : JValue) (h : p' ≠ p) :
    fileAt (setFile fs p v) p' = fileAt fs p' := by
  show fileAt ⟨setKV fs.files p v⟩ p' = fileAt fs p'
  unfold fileAt
  induction fs.files with
  | nil =>
    have : (p == p') = false := by simpa using (Ne.symm h)
    simp [setKV, List.find?, this]
  | cons kv rest ih =>
    cases kv with
    | mk k w =>
      simp only [setKV]
      by_cases hk : k == p
      · rw [if_pos hk]
        have hkp : k = p := by simpa using hk
        have : (k == p') = false := by
          simp [hkp]; exact (Ne.symm h)
        simp [List.find?, this]
      · rw [if_neg hk]
        simp only [List.find?]
        by_cases hk' : k == p'
        · simp [hk']
        · simp only [hk', cond_false]
          exact ih

theorem canonical_ne_backup (fn ver ts : String) :
    (fn ++ ".json") ≠ ("versions/" ++ (fn ++ ".v" ++ ver ++ "." ++ ts ++ ".json")) := by
  intro h
  have hl := congrArg String.length h
  have h1 : (".json" : String).length = 5 := rfl
  have h2 : ("versions/" : String).length = 9 := rfl
  have h3 : (".v" : String).length = 2 := rfl
  have h4 : ("." : String).length = 1 := rfl
  simp only [String.length_append, h1, h2, h3, h4] at hl
  omega

/- ### Claims C4, C5, C10, C8 -/

/-- C4: `increment_version` maps "1.0" to "1.1" and "2.9" to "2.10"; any
input without a '.'-separated minor segment, or whose minor segment does not
parse as an integer, yields the original string with ".1" appended.  The
model is a total function, so no input raises. -/
theorem C4_increment_version :
    (increment_version "1.0" = "1.1" ∧ increment_version "2.9" = "2.10" ∧
     increment_version "v" = "v.1") ∧
    (∀ s : String, (splitDot s.data []).length < 2 →
      increment_version s = s ++ ".1") ∧
    (∀ (s major minor : String) (rest : List String),
      (splitDot s.data []).map (fun l => (⟨l⟩ : String)) = major :: minor :: rest →
      pyParseInt minor = none →
      increment_version s = s ++ ".1") := by
  refine ⟨⟨rfl, rfl, rfl⟩, ?_, ?_⟩
  · intro s hlen
    unfold increment_version
    have hlen' : ((splitDot s.data []).map (fun l => (⟨l⟩ : String))).length < 2 := by
      simpa using hlen
    cases hp : (splitDot s.data []).map (fun l => (⟨l⟩ : String)) with
    | nil => simp [hp]
    | cons a t =>
      cases t with
      | nil => simp [hp]
      | cons b t' =>
        rw [hp] at hlen'
        simp only [List.length_cons] at hlen'
        omega
  · intro s major minor rest hp hparse
    unfold increment_version
    rw [hp]
    simp [hparse]

theorem C4_increment_version_witness :
    increment_version "a.b" = "a.b" ++ ".1" :=
  C4_increment_version.2.2 "a.b" "a" "b" [] rfl rfl

/-- C5: saving a JSON-representable rubric under a filename and loading that
filename back returns exactly the saved structure (the save writes the
rubric verbatim, so equality holds a fortiori "modulo an added status
field"). -/
theorem C5_save_load_round_trip :
    ∀ (rubric : JValue) (fn ts : String) (io : IOOracle) (fs : FS),
      io.finalWriteFails = false →
      load_rubric_from_file fn (save_rubric_to_file rubric fn true ts io fs).2 =
        (some rubric, none) := by
  intro rubric fn ts io fs hio
  unfold save_rubric_to_file load_rubric_from_file
  simp only [hio, Bool.false_eq_true, if_false]
  rw [fileAt_setFile_self]

theorem C5_save_load_round_trip_witness :
    load_rubric_from_file "f"
      (save_rubric_to_file (.str "x") "f" true "t" ioOk emptyFS).2 =
    (some (.str "x"), none) :=
  C5_save_load_round_trip (.str "x") "f" "t" ioOk emptyFS rfl

/-- C10: every backup-phase failure inside `save_rubric_to_file` is swallowed
(the function still returns `(True, None)` whenever the final write
succeeds), and when the versions directory cannot be created or the copy
fails, the save succeeds with no backup written at all: the store changes
only at the canonical path. -/
theorem C10_backup_failure_swallowed :
    ∀ (rubric : JValue) (fn ts : String) (io : IOOracle) (fs : FS),
      io.finalWriteFails = false →
      (save_rubric_to_file rubric fn true ts io fs).1 = (true, none) ∧
      (io.mkVersionsDirFails = true →
        (save_rubric_to_file rubric fn true ts io fs).2 =
          setFile fs (fn ++ ".json") rubric) ∧
      (io.mkVersionsDirFails = false → io.copyFails = true →
        (save_rubric_to_file rubric fn true ts io fs).2 =
          setFile fs (fn ++ ".json") rubric) := by
  intro rubric fn ts io fs hio
  refine ⟨?_, ?_, ?_⟩
  · unfold save_rubric_to_file
    simp [hio]
  · intro hm
    unfold save_rubric_to_file backup_step
    simp [hio, hm]
  · intro hm hc
    unfold save_rubric_to_file backup_step
    simp [hio, hm, hc]

theorem C10_backup_failure_swallowed_witness :
    (save_rubric_to_file (.str "x") "f" true "t"
        ⟨true, false, false, false, false, false⟩ emptyFS).1 = (true, none) ∧
    (save_rubric_to_file (.str "x") "f" true "t"
        ⟨true, false, false, false, false, false⟩ emptyFS).2 =
      setFile emptyFS ("f" ++ ".json") (.str "x") := by
  have h := C10_backup_failure_swallowed (.str "x") "f" "t"
    ⟨true, false, false, false, false, false⟩ emptyFS rfl
  exact ⟨h.1, h.2.1 rfl⟩

/-- C8: with `create_backup` and an existing live file, the backup step of
`save_rubric_to_file` writes a copy at
`versions/{filename}.v{version}.{timestamp}.json` whose status is
`archive`, leaves the live file's content unchanged, and only the final
write replaces the live file with the new rubric. -/
theorem C8_backup_preserves_live :
    ∀ (ckvs : Dict) (rubric : JValue) (fn v ts : String) (fs : FS),
      fileAt fs (fn ++ ".json") = some (.obj ckvs) →
      jlookup ckvs "version" = some (.str v) →
      fileAt (backup_step fn ts ioOk fs) (fn ++ ".json") = some (.obj ckvs) ∧
      fileAt (backup_step fn ts ioOk fs)
          ("versions/" ++ (fn ++ ".v" ++ v ++ "." ++ ts ++ ".json")) =
        some (.obj (setKV ckvs "status" (.str "archive"))) ∧
      (save_rubric_to_file rubric fn true ts ioOk fs).2 =
        setFile (backup_step fn ts ioOk fs) (fn ++ ".json") rubric ∧
      fileAt (save_rubric_to_file rubric fn true ts ioOk fs).2 (fn ++ ".json") =
        some rubric := by
  intro ckvs rubric fn v ts fs hcur hver
  have hbs : backup_step fn ts ioOk fs =
      setFile (setFile fs ("versions/" ++ (fn ++ ".v" ++ v ++ "." ++ ts ++ ".json"))
          (.obj ckvs))
        ("versions/" ++ (fn ++ ".v" ++ v ++ "." ++ ts ++ ".json"))
        (.obj (setKV ckvs "status" (.str "archive"))) := by
    unfold backup_step
    simp [ioOk, hcur, jlookupD, hver, pyStrOf]
  have hsave : (save_rubric_to_file rubric fn true ts ioOk fs).2 =
      setFile (backup_step fn ts ioOk fs) (fn ++ ".json") rubric := by
    unfold save_rubric_to_file
    simp [ioOk, hcur]
  refine ⟨?_, ?_, hsave, ?_⟩
  · rw [hbs, fileAt_setFile_ne _ _ _ _ (canonical_ne_backup fn v ts),
        fileAt_setFile_ne _ _ _ _ (canonical_ne_backup fn v ts)]
    exact hcur
  · rw [hbs]
    exact fileAt_setFile_self ..
  · rw [hsave]
    exact fileAt_setFile_self ..

theorem C8_backup_preserves_live_witness :
    fileAt (backup_step "x" "t" ioOk (setFile emptyFS ("x" ++ ".json")
        (.obj [("version", .str "1.0")]))) ("x" ++ ".json") =
      some (.obj [("version", .str "1.0")]) ∧
    fileAt (backup_step "x" "t" ioOk (setFile emptyFS ("x" ++ ".json")
        (.obj [("version", .str "1.0")])))
        ("versions/" ++ ("x" ++ ".v" ++ "1.0" ++ "." ++ "t" ++ ".json")) =
      some (.obj (setKV [("version", .str "1.0")] "status" (.str "archive"))) := by
  have h := C8_backup_preserves_live [("version", .str "1.0")] (.str "r") "x" "1.0" "t"
    (setFile emptyFS ("x" ++ ".json") (.obj [("version", .str "1.0")])) rfl rfl
  exact ⟨h.1, h.2.1⟩

/- ### String/glob lemmas for the restore chain -/

theorem strAppend_assoc (a b c : String) : (a ++ b) ++ c = a ++ (b ++ c) := by
  cases a with
  | mk la =>
    cases b with
    | mk lb =>
      cases c with
      | mk lc =>
        show String.mk ((la ++ lb) ++ lc) = String.mk (la ++ (lb ++ lc))
        rw [List.append_assoc]

theorem chPrefixOf_append_self (l t : List Char) : chPrefixOf l (l ++ t) = true := by
  induction l with
  | nil => rfl
  | cons a as ih => simp [chPrefixOf, ih]

theorem chSuffixOf_append_self (s t : List Char) : chSuffixOf s (t ++ s) = true := by
  unfold chSuffixOf
  rw [List.reverse_append]
  exact chPrefixOf_append_self ..

theorem drop_length_append (l t : List Char) : (l ++ t).drop l.length = t := by
  induction l with
  | nil => rfl
  | cons a as ih => simpa using ih

theorem globMatch_true (pre mid suf : String) :
    globMatch pre suf (pre ++ (mid ++ suf)) = true := by
  unfold globMatch
  rw [String.data_append, String.data_append, chPrefixOf_append_self]
  rw [Bool.true_and]
  have : (pre.data ++ (mid.data ++ suf.data)).drop pre.data.length =
      mid.data ++ suf.data := drop_length_append ..
  rw [this, chSuffixOf_append_self]

theorem setKV_setKV (kvs : Dict) (k : String) (a b : JValue) :
    setKV (setKV kvs k a) k b = setKV kvs k b := by
  induction kvs with
  | nil => simp [setKV]
  | cons kv rest ih =>
    cases kv with
    | mk k' w =>
      by_cases h : k' == k
      · simp [setKV, h]
      · simp [setKV, h, ih]

def isVersionsPath (p : String) : Bool := chPrefixOf "versions/".data p.data

theorem filter_setFile_false (fs : FS) (p : String) (v : JValue)
    (pred : String → Bool) (h : pred p = false) :
    (setFile fs p v).files.filter (fun kv => pred kv.1) =
      fs.files.filter (fun kv => pred kv.1) := by
  show (setKV fs.files p v).filter (fun kv => pred kv.1) =
    fs.files.filter (fun kv => pred kv.1)
  induction fs.files with
  | nil => simp [setKV, List.filter, h]
  | cons kv rest ih =>
    cases kv with
    | mk k w =>
      by_cases hk : k == p
      · have hkp : k = p := by simpa using hk
        subst hkp
        simp [setKV, List.filter, h]
      · simp only [setKV, hk, if_false, Bool.false_eq_true, List.filter]
        rw [ih]

/-- C6: after `save(r1, "x")` on an empty store and `save(r2, "x",
create_backup=True)`, `restore("x", r1.version)` succeeds, makes the current
file's content equal to `r1` with its `status` field forced to `"current"`,
and leaves the versions area untouched (no additional backup is written by
the restore). -/
theorem C6_restore_after_backup :
    ∀ (r1k r2k : Dict) (v1 v2 ts1 ts2 : String),
      jlookup r1k "version" = some (.str v1) →
      jlookup r2k "version" = some (.str v2) →
      v1 ≠ v2 →
      ∀ fs1 fs2 : FS,
        fs1 = (save_rubric_to_file (.obj r1k) "x" true ts1 ioOk emptyFS).2 →
        fs2 = (save_rubric_to_file (.obj r2k) "x" true ts2 ioOk fs1).2 →
        restore_rubric_version "x" v1 restoreOk fs2 =
          .ok ((true, none),
            setFile fs2 ("x" ++ ".json") (.obj (setKV r1k "status" (.str "current")))) ∧
        fileAt (setFile fs2 ("x" ++ ".json") (.obj (setKV r1k "status" (.str "current"))))
            ("x" ++ ".json") =
          some (.obj (setKV r1k "status" (.str "current"))) ∧
        (setFile fs2 ("x" ++ ".json") (.obj (setKV r1k "status" (.str "current")))).files.filter
            (fun kv => isVersionsPath kv.1) =
          fs2.files.filter (fun kv => isVersionsPath kv.1) := by
  intro r1k r2k v1 v2 ts1 ts2 hv1 hv2 hne fs1 fs2 hf1 hf2
  have hv1' : pyStrOf (jlookupD r1k "version" (.str "1.0")) = v1 := by
    simp [jlookupD, hv1, pyStrOf]
  have hneq1 : (("x" ++ ".json") ==
      ("versions/" ++ ("x" ++ ".v" ++ v1 ++ "." ++ ts2 ++ ".json"))) = false := by
    rw [beq_eq_false_iff_ne]
    exact canonical_ne_backup "x" v1 ts2
  have hfs1 : fs1 = ⟨[("x" ++ ".json", .obj r1k)]⟩ := by
    subst hf1
    unfold save_rubric_to_file
    simp [ioOk, fileAt, emptyFS, setFile, setKV]
  have hfs2 : fs2 = ⟨[("x" ++ ".json", .obj r2k),
      ("versions/" ++ ("x" ++ ".v" ++ v1 ++ "." ++ ts2 ++ ".json"),
       .obj (setKV r1k "status" (.str "archive")))]⟩ := by
    subst hf2
    rw [hfs1]
    unfold save_rubric_to_file backup_step
    simp [ioOk, fileAt, List.find?, hv1', setFile, setKV, hneq1]
  have hglob1 : globMatch ("versions/" ++ ("x" ++ ".v" ++ v1 ++ ".")) ".json"
      ("x" ++ ".json") = false := by
    unfold globMatch
    rw [String.data_append]
    rfl
  have hglob2 : globMatch ("versions/" ++ ("x" ++ ".v" ++ v1 ++ ".")) ".json"
      ("versions/" ++ ("x" ++ ".v" ++ v1 ++ "." ++ ts2 ++ ".json")) = true := by
    have h : ("versions/" ++ ("x" ++ ".v" ++ v1 ++ "." ++ ts2 ++ ".json")) =
        (("versions/" ++ ("x" ++ ".v" ++ v1 ++ ".")) ++ (ts2 ++ ".json")) := by
      simp [strAppend_assoc]
    rw [h]
    exact globMatch_true ("versions/" ++ ("x" ++ ".v" ++ v1 ++ ".")) ts2 ".json"
  refine ⟨?_, fileAt_setFile_self .., ?_⟩
  · rw [hfs2]
    unfold restore_rubric_version
    simp only [List.filter, hglob1, hglob2]
    rw [setKV_setKV]
    simp [restoreOk]
  · refine filter_setFile_false _ _ _ _ ?_
    rfl

theorem C6_restore_after_backup_witness :
    restore_rubric_version "x" "1.0" restoreOk
        (save_rubric_to_file (.obj [("version", .str "1.1")]) "x" true "t2" ioOk
          (save_rubric_to_file (.obj [("version", .str "1.0")]) "x" true "t1" ioOk
            emptyFS).2).2 =
      .ok ((true, none),
        setFile
          (save_rubric_to_file (.obj [("version", .str "1.1")]) "x" true "t2" ioOk
            (save_rubric_to_file (.obj [("version", .str "1.0")]) "x" true "t1" ioOk
              emptyFS).2).2
          ("x" ++ ".json")
          (.obj (setKV [("version", .str "1.0")] "status" (.str "current")))) :=
  (C6_restore_after_backup [("version", .str "1.0")] [("version", .str "1.1")]
    "1.0" "1.1" "t1" "t2" rfl rfl (by decide) _ _ rfl rfl).1

/- ### Claim C7: the listing -/

theorem mem_insertByKey (x kv : String × JValue) (l : List (String × JValue)) :
    x ∈ insertByKey kv l ↔ x = kv ∨ x ∈ l := by
  induction l with
  | nil => simp [insertByKey]
  | cons kv' rest ih =>
    by_cases h : kv.1 < kv'.1
    · simp [insertByKey, h]
    · simp [insertByKey, h, ih]
      tauto

theorem mem_sortByKey (x : String × JValue) (l : List (String × JValue)) :
    x ∈ sortByKey l ↔ x ∈ l := by
  induction l with
  | nil => simp [sortByKey]
  | cons kv rest ih =>
    simp [sortByKey, mem_insertByKey, ih]

theorem chPrefixOf_exists (a b : List Char) (h : chPrefixOf a b = true) :
    ∃ u, b = a ++ u := by
  induction a generalizing b with
  | nil => exact ⟨b, rfl⟩
  | cons c cs ih =>
    cases b with
    | nil => simp [chPrefixOf] at h
    | cons d ds =>
      simp only [chPrefixOf, Bool.and_eq_true, beq_iff_eq] at h
      obtain ⟨rfl, h2⟩ := h
      obtain ⟨u, rfl⟩ := ih ds h2
      exact ⟨u, rfl⟩

theorem chSuffixOf_exists (s t : List Char) (h : chSuffixOf s t = true) :
    ∃ u, t = u ++ s := by
  obtain ⟨u, hu⟩ := chPrefixOf_exists _ _ h
  refine ⟨u.reverse, ?_⟩
  have := congrArg List.reverse hu
  simpa [List.reverse_append] using this

theorem stemOf_reconstruct (p : String) (h : isTopLevelJson p = true) :
    stemOf p ++ ".json" = p := by
  have hsuf : chSuffixOf ".json".data p.data = true := by
    simp only [isTopLevelJson, Bool.and_eq_true] at h
    exact h.2
  obtain ⟨u, hu⟩ := chSuffixOf_exists _ _ hsuf
  have hlen : p.data.length = u.length + 5 := by
    rw [hu, List.length_append]
    rfl
  have hstem : stemOf p = ⟨u⟩ := by
    unfold stemOf
    rw [hu]
    have h5 : (u ++ ".json".data).length - 5 = u.length := by
      rw [List.length_append, show (".json".data).length = 5 from rfl]
      omega
    rw [h5, List.take_left]
  rw [hstem]
  show (⟨u ++ ".json".data⟩ : String) = p
  cases p with
  | mk d =>
    simp only at hu
    rw [← hu]

theorem listEntryOf_some (p : String) (v : JValue) (e : RubricEntry)
    (h : listEntryOf p v = some e) :
    ∃ kvs m, validate_rubric v = .ok (true, m) ∧ v = .obj kvs ∧
      pyEq (jlookupD kvs "status" JValue.null) (.str "current") = true ∧
      e.filename = stemOf p := by
  unfold listEntryOf at h
  cases hval : validate_rubric v with
  | error msg => rw [hval] at h; simp at h
  | ok r =>
    rw [hval] at h
    obtain ⟨isv, m⟩ := r
    cases isv with
    | false => simp at h
    | true =>
      simp only [Bool.not_true, if_false, Bool.false_eq_true] at h
      cases v with
      | obj kvs =>
        dsimp only at h
        by_cases hst : pyEq (jlookupD kvs "status" JValue.null) (.str "current") = true
        · rw [if_pos hst] at h
          refine ⟨kvs, m, rfl, rfl, hst, ?_⟩
          cases h
          rfl
        · rw [if_neg hst] at h
          exact absurd h (by simp)
      | null => simp at h
      | bool b => simp at h
      | int n => simp at h
      | float q => simp at h
      | str s => simp at h
      | arr xs => simp at h

/-- C7: the available-rubrics listing always contains an entry with filename
`sample-rubric`, and every other entry corresponds to a stored `*.json`
file whose content validates as a rubric and whose `status` field equals
`current` (invalid or non-current files are excluded). -/
theorem C7_list_available :
    ∀ fs : FS,
      (∃ e ∈ list_available_rubrics fs, e.filename = "sample-rubric") ∧
      (∀ e ∈ list_available_rubrics fs, e.filename ≠ "sample-rubric" →
        ∃ v kvs m, (e.filename ++ ".json", v) ∈ fs.files ∧
          validate_rubric v = .ok (true, m) ∧ v = .obj kvs ∧
          pyEq (jlookupD kvs "status" JValue.null) (.str "current") = true) := by
  intro fs
  unfold list_available_rubrics
  set files := sortByKey (fs.files.filter (fun kv => isTopLevelJson kv.1)) with hfiles
  set available := files.filterMap (fun kv => listEntryOf kv.1 kv.2) with havail
  have hmem_avail : ∀ e ∈ available, e.filename ≠ "sample-rubric" →
      ∃ v kvs m, (e.filename ++ ".json", v) ∈ fs.files ∧
        validate_rubric v = .ok (true, m) ∧ v = .obj kvs ∧
        pyEq (jlookupD kvs "status" JValue.null) (.str "current") = true := by
    intro e he _
    rw [havail, List.mem_filterMap] at he
    obtain ⟨kv, hkv, hentry⟩ := he
    rw [hfiles, mem_sortByKey, List.mem_filter] at hkv
    obtain ⟨hkvmem, hjson⟩ := hkv
    obtain ⟨kvs, m, hval, hobj, hst, hfn⟩ := listEntryOf_some kv.1 kv.2 e hentry
    refine ⟨kv.2, kvs, m, ?_, hval, hobj, hst⟩
    have : e.filename ++ ".json" = kv.1 := by
      rw [hfn]
      exact stemOf_reconstruct kv.1 hjson
    rw [this]
    exact hkvmem
  by_cases hany : available.any (fun r => r.filename == "sample-rubric") = true
  · rw [if_pos hany]
    constructor
    · rw [List.any_eq_true] at hany
      obtain ⟨e, he, hbeq⟩ := hany
      exact ⟨e, he, by simpa using hbeq⟩
    · exact hmem_avail
  · rw [if_neg hany]
    constructor
    · exact ⟨⟨"sample-rubric", .str "Sample Rubric", .str "Built-in sample rubric"⟩,
        List.mem_cons_self .., rfl⟩
    · intro e he hne
      rcases List.mem_cons.mp he with rfl | he'
      · exact absurd rfl hne
      · exact hmem_avail e he' hne

theorem C7_list_available_witness :
    ∃ e ∈ list_available_rubrics emptyFS, e.filename = "sample-rubric" :=
  (C7_list_available emptyFS).1

/- ### Claim C1: format dispatch -/

theorem pyMemStr_obj (k : String) (kvs : Dict) :
    pyMemStr k (.obj kvs) = .ok (hasKey kvs k) := rfl

theorem pyGetStr_obj (k : String) (kvs : Dict) :
    pyGetStr (.obj kvs) k =
      (match jlookup kvs k with
       | some x => .ok x
       | none => .error ("KeyError: " ++ k)) := rfl

theorem allMem_obj (ks : List String) (kvs : Dict) :
    allMem ks (.obj kvs) = .ok (ks.all (fun k => hasKey kvs k)) := by
  induction ks with
  | nil => rfl
  | cons k rest ih =>
    simp only [allMem, pyMemStr_obj, List.all_cons]
    by_cases h : hasKey kvs k
    · rw [h]
      simpa using ih
    · rw [Bool.not_eq_true] at h
      rw [h]
      simp

def eraseCriteria (kvs : Dict) : Dict := kvs.filter (fun p => !(p.1 == "criteria"))

theorem hasKey_erase (kvs : Dict) (k : String) (h : k ≠ "criteria") :
    hasKey (eraseCriteria kvs) k = hasKey kvs k := by
  induction kvs with
  | nil => rfl
  | cons kv rest ih =>
    by_cases hk : kv.1 == "criteria"
    · have : (kv.1 == k) = false := by
        have : kv.1 = "criteria" := by simpa using hk
        simp [this]
        exact fun hh => h hh.symm
      simp [eraseCriteria, List.filter, hk, hasKey, this] at *
      exact ih
    · simp only [eraseCriteria, List.filter, hk, Bool.not_false, hasKey, List.any_cons] at *
      rw [ih]

theorem hasKey_erase_criteria (kvs : Dict) :
    hasKey (eraseCriteria kvs) "criteria" = false := by
  induction kvs with
  | nil => rfl
  | cons kv rest ih =>
    by_cases hk : kv.1 == "criteria"
    · simpa [eraseCriteria, List.filter, hk] using ih
    · simp only [eraseCriteria, List.filter, hk, Bool.not_false, hasKey, List.any_cons] at *
      simp [hk, ih]

theorem jlookup_erase (kvs : Dict) (k : String) (h : k ≠ "criteria") :
    jlookup (eraseCriteria kvs) k = jlookup kvs k := by
  induction kvs with
  | nil => rfl
  | cons kv rest ih =>
    by_cases hk : kv.1 == "criteria"
    · have hne : (kv.1 == k) = false := by
        have : kv.1 = "criteria" := by simpa using hk
        simp [this]
        exact fun hh => h hh.symm
      simp only [eraseCriteria, List.filter, hk, Bool.not_true, jlookup, List.find?, hne,
        cond_false] at *
      exact ih
    · simp only [eraseCriteria, List.filter, hk, Bool.not_false, jlookup, List.find?] at *
      by_cases hkk : kv.1 == k
      · simp [hkk]
      · simp only [hkk, cond_false]
        exact ih

theorem missingOf_erase (ks : List String) (kvs : Dict)
    (h : ∀ k ∈ ks, k ≠ "criteria") :
    missingOf ks (eraseCriteria kvs) = missingOf ks kvs := by
  induction ks with
  | nil => rfl
  | cons k rest ih =>
    simp only [missingOf, List.filter] at *
    rw [hasKey_erase kvs k (h k (by simp))]
    have ih' := ih (fun x hx => h x (by simp [hx]))
    by_cases hk : hasKey kvs k
    · simp only [hk, Bool.not_true]
      exact ih'
    · rw [Bool.not_eq_true] at hk
      simp only [hk, Bool.not_false]
      rw [show (rest.filter fun k => !hasKey (eraseCriteria kvs) k) =
        (rest.filter fun k => !hasKey kvs k) from ih']

theorem allKeys_erase_new (kvs : Dict) :
    (requiredTopKeysNew.all fun k => hasKey (eraseCriteria kvs) k) =
      (requiredTopKeysNew.all fun k => hasKey kvs k) := by
  simp only [requiredTopKeysNew, List.all_cons, List.all_nil]
  rw [hasKey_erase kvs "categories" (by decide), hasKey_erase kvs "scale" (by decide),
    hasKey_erase kvs "overall_method" (by decide),
    hasKey_erase kvs "thresholds" (by decide)]

theorem validateNewFormat_erase (kvs : Dict) :
    validateNewFormat (.obj (eraseCriteria kvs)) = validateNewFormat (.obj kvs) := by
  unfold validateNewFormat
  rw [allMem_obj, allMem_obj, allKeys_erase_new]
  dsimp only
  rw [missingOf_erase requiredTopKeysNew kvs (by decide),
    pyGetStr_obj, pyGetStr_obj, jlookup_erase kvs "categories" (by decide)]

theorem commonChecks_erase (kvs : Dict) :
    commonChecks (.obj (eraseCriteria kvs)) = commonChecks (.obj kvs) := by
  unfold commonChecks
  rw [pyGetStr_obj, pyGetStr_obj, jlookup_erase kvs "scale" (by decide),
    pyGetStr_obj, pyGetStr_obj, jlookup_erase kvs "thresholds" (by decide)]

/-- C1 counterexample: a rubric carrying BOTH the `categories` and the
`criteria` key is not rejected — `validate_rubric` validates it as
hierarchical and accepts it, contradicting the claim that exactly one of the
two keys must be present. -/
theorem C1_both_keys_accepted :
    pyMemStr "categories" bothKeysRubric = .ok true ∧
    pyMemStr "criteria" bothKeysRubric = .ok true ∧
    validate_rubric bothKeysRubric = .ok (true, none) ∧
    validate_rubric bothKeysRubric ≠ .ok (false, some msgNeitherFormat) :=
  ⟨rfl, rfl, rfl, by
    intro h
    rw [show validate_rubric bothKeysRubric = .ok (true, none) from rfl] at h
    simp at h⟩

/-- C1 (amended): `validate_rubric` fails with the
"must have either categories or criteria" reason exactly when NEITHER key is
present; when `categories` is present the `criteria` key is ignored (the
result is unchanged by deleting it), so a rubric containing both keys is
validated under the hierarchical rules rather than rejected. -/
theorem C1_format_dispatch :
    (∀ kvs : Dict, hasKey kvs "categories" = false → hasKey kvs "criteria" = false →
      validate_rubric (.obj kvs) = .ok (false, some msgNeitherFormat)) ∧
    (∀ kvs : Dict, hasKey kvs "categories" = true →
      validate_rubric (.obj kvs) = validate_rubric (.obj (eraseCriteria kvs))) := by
  constructor
  · intro kvs h1 h2
    unfold validate_rubric
    rw [pyMemStr_obj, pyMemStr_obj, h1, h2]
    rfl
  · intro kvs hcat
    unfold validate_rubric
    rw [pyMemStr_obj, pyMemStr_obj, pyMemStr_obj, pyMemStr_obj, hcat,
      hasKey_erase kvs "categories" (by decide), hcat, hasKey_erase_criteria,
      validateNewFormat_erase, commonChecks_erase]
    rfl

theorem C1_format_dispatch_witness :
    validate_rubric (.obj []) = .ok (false, some msgNeitherFormat) :=
  C1_format_dispatch.1 [] rfl rfl

/- ### Acceptance-inversion machinery for claims C2 and C3 -/

theorem jlookup_some_hasKey (kvs : Dict) (k : String) (v : JValue)
    (h : jlookup kvs k = some v) : hasKey kvs k = true := by
  unfold jlookup at h
  cases hf : kvs.find? (fun kv => kv.1 == k) with
  | none => rw [hf] at h; simp at h
  | some kv =>
    have hmem := List.mem_of_find?_eq_some hf
    have hp := List.find?_some hf
    unfold hasKey
    rw [List.any_eq_true]
    exact ⟨kv, hmem, hp⟩

theorem hasKey_lookup (kvs : Dict) (k : String) (h : hasKey kvs k = true) :
    ∃ v, jlookup kvs k = some v := by
  unfold hasKey at h
  rw [List.any_eq_true] at h
  obtain ⟨kv, hmem, hp⟩ := h
  have : (kvs.find? (fun kv => kv.1 == k)).isSome := by
    rw [List.find?_isSome]
    exact ⟨kv, hmem, hp⟩
  obtain ⟨x, hx⟩ := Option.isSome_iff_exists.mp this
  exact ⟨x.2, by unfold jlookup; rw [hx]; rfl⟩

theorem pyGetStr_ok (v : JValue) (k : String) (x : JValue)
    (h : pyGetStr v k = .ok x) :
    ∃ kvs, v = .obj kvs ∧ jlookup kvs k = some x := by
  cases v with
  | obj kvs =>
    refine ⟨kvs, rfl, ?_⟩
    rw [pyGetStr_obj] at h
    cases hl : jlookup kvs k with
    | none => rw [hl] at h; simp at h
    | some y => rw [hl] at h; simp at h; rw [h]
  | null => simp [pyGetStr] at h
  | bool b => simp [pyGetStr] at h
  | int n => simp [pyGetStr] at h
  | float q => simp [pyGetStr] at h
  | str s => simp [pyGetStr] at h
  | arr xs => simp [pyGetStr] at h

theorem checkCriterion_inr (cid : JValue) (j : Nat) (c : JValue)
    (seen : List JValue) (pts : Int) (seen' : List JValue) (pts' : Int)
    (h : checkCriterion cid j c seen pts = .ok (.inr (seen', pts'))) :
    ∃ ckvs mpv mp, c = .obj ckvs ∧ jlookup ckvs "max_points" = some mpv ∧
      pyInt mpv = some mp ∧ ¬ mp ≤ 0 ∧ pts' = pts + mp := by
  unfold checkCriterion at h
  split at h
  · exact absurd h (by simp)
  · split at h
    · split at h
      · exact absurd h (by simp)
      · exact absurd h (by simp)
    · split at h
      · exact absurd h (by simp)
      · rename_i present hpres crid hget
        split at h
        · exact absurd h (by simp)
        · split at h
          · exact absurd h (by simp)
          · split at h
            · exact absurd h (by simp)
            · rename_i mpv hmp
              split at h
              · exact absurd h (by simp)
              · rename_i mp hint
                split at h
                · exact absurd h (by simp)
                · rename_i hle
                  obtain ⟨ckvs, rfl, hlook⟩ := pyGetStr_ok _ _ _ hget
                  obtain ⟨ckvs', heq, hlook'⟩ := pyGetStr_ok _ _ _ hmp
                  cases heq
                  simp only [Except.ok.injEq, Sum.inr.injEq, Prod.mk.injEq] at h
                  exact ⟨ckvs, mpv, mp, rfl, hlook', hint, hle, h.2.symm⟩

theorem checkCriterion_inl (cid : JValue) (j : Nat) (c : JValue)
    (seen : List JValue) (pts : Int) (r : VResult)
    (h : checkCriterion cid j c seen pts = .ok (.inl r)) : r.1 = false := by
  unfold checkCriterion at h
  iterate 12 (all_goals (try (split at h)))
  all_goals
    first
    | (simp only [Except.ok.injEq, Sum.inl.injEq] at h; rw [← h]; done)
    | simp at h

theorem critLoop_inl (cid : JValue) :
    ∀ (cs : List JValue) (j : Nat) (seen : List JValue) (pts : Int) (r : VResult),
      critLoop cid cs j seen pts = .ok (.inl r) → r.1 = false := by
  intro cs
  induction cs with
  | nil => intro j seen pts r h; exact absurd h (by simp [critLoop])
  | cons c rest ih =>
    intro j seen pts r h
    unfold critLoop at h
    split at h
    · exact absurd h (by simp)
    · rename_i r' heq
      simp only [Except.ok.injEq, Sum.inl.injEq] at h
      rw [← h]
      exact checkCriterion_inl _ _ _ _ _ _ heq
    · rename_i st heq
      exact ih _ _ _ _ h

theorem checkCategory_inl (i : Nat) (c : JValue)
    (seen : List JValue) (tw : Fr) (r : VResult)
    (h : checkCategory i c seen tw = .ok (.inl r)) : r.1 = false := by
  unfold checkCategory at h
  iterate 18 (all_goals (try (split at h)))
  all_goals
    first
    | (simp only [Except.ok.injEq, Sum.inl.injEq] at h; rw [← h]; done)
    | (rename_i r' heq
       simp only [Except.ok.injEq, Sum.inl.injEq] at h
       rw [← h]
       exact critLoop_inl _ _ _ _ _ _ heq)
    | simp at h

theorem catLoop_inl :
    ∀ (cats : List JValue) (i : Nat) (seen : List JValue) (tw : Fr) (r : VResult),
      catLoop cats i seen tw = .ok (.inl r) → r.1 = false := by
  intro cats
  induction cats with
  | nil => intro i seen tw r h; exact absurd h (by simp [catLoop])
  | cons c rest ih =>
    intro i seen tw r h
    unfold catLoop at h
    split at h
    · exact absurd h (by simp)
    · rename_i r' heq
      simp only [Except.ok.injEq, Sum.inl.injEq] at h
      rw [← h]
      exact checkCategory_inl _ _ _ _ _ heq
    · exact ih _ _ _ _ h

theorem critLoop_inr_sum (cid : JValue) :
    ∀ (cs : List JValue) (j : Nat) (seen : List JValue) (pts : Int)
      (seen' : List JValue) (pts' : Int),
      critLoop cid cs j seen pts = .ok (.inr (seen', pts')) →
      specCritPtsSum cs pts = some pts' := by
  intro cs
  induction cs with
  | nil =>
    intro j seen pts seen' pts' h
    simp only [critLoop, Except.ok.injEq, Sum.inr.injEq, Prod.mk.injEq] at h
    rw [show pts' = pts from h.2.symm]
    rfl
  | cons c rest ih =>
    intro j seen pts seen' pts' h
    unfold critLoop at h
    split at h
    · exact absurd h (by simp)
    · exact absurd h (by simp)
    · rename_i st heq
      obtain ⟨s1, p1⟩ := st
      obtain ⟨ckvs, mpv, mp, rfl, hlook, hint, hpos, hp1⟩ :=
        checkCriterion_inr _ _ _ _ _ _ _ heq
      have := ih _ _ _ _ _ h
      simp only [specCritPtsSum, hlook, hint]
      rw [← hp1]
      exact this

theorem checkCategory_inr (i : Nat) (cat : JValue) (seen : List JValue) (tw : Fr)
    (seen' : List JValue) (tw' : Fr)
    (h : checkCategory i cat seen tw = .ok (.inr (seen', tw'))) :
    (∃ ckvs wv w, cat = .obj ckvs ∧ jlookup ckvs "weight" = some wv ∧
      pyFloat wv = some w ∧ tw' = frAdd tw w) ∧ catPointsConsistent cat := by
  unfold checkCategory at h
  split at h
  · exact absurd h (by simp)
  · split at h
    · split at h
      · exact absurd h (by simp)
      · exact absurd h (by simp)
    · split at h
      · exact absurd h (by simp)
      · rename_i present hpres cid hget
        split at h
        · exact absurd h (by simp)
        · split at h
          · exact absurd h (by simp)
          · split at h
            · exact absurd h (by simp)
            · rename_i wv hwget
              split at h
              · exact absurd h (by simp)
              · rename_i w hwf
                split at h
                · exact absurd h (by simp)
                · split at h
                  · exact absurd h (by simp)
                  · rename_i mpv hmpget
                    split at h
                    · exact absurd h (by simp)
                    · rename_i mp hint
                      split at h
                      · exact absurd h (by simp)
                      · split at h
                        · exact absurd h (by simp)
                        · rename_i critv hcget
                          split at h
                          · rename_i cs
                            split at h
                            · exact absurd h (by simp)
                            · split at h
                              · exact absurd h (by simp)
                              · exact absurd h (by simp)
                              · rename_i st heq
                                obtain ⟨sx, pts⟩ := st
                                split at h
                                · exact absurd h (by simp)
                                · rename_i hpeq
                                  obtain ⟨ckvs, rfl, hcidlook⟩ := pyGetStr_ok _ _ _ hget
                                  obtain ⟨ckvs2, heq2, hwlook⟩ := pyGetStr_ok _ _ _ hwget
                                  obtain ⟨ckvs3, heq3, hmplook⟩ := pyGetStr_ok _ _ _ hmpget
                                  obtain ⟨ckvs4, heq4, hclook⟩ := pyGetStr_ok _ _ _ hcget
                                  cases heq2
                                  cases heq3
                                  cases heq4
                                  simp only [Except.ok.injEq, Sum.inr.injEq,
                                    Prod.mk.injEq] at h
                                  constructor
                                  · exact ⟨ckvs, wv, w, rfl, hwlook, hwf, h.2.symm⟩
                                  · refine ⟨ckvs, mpv, cs, pts, rfl, hmplook, hclook, ?_, ?_⟩
                                    · exact critLoop_inr_sum _ _ _ _ _ _ _ heq
                                    · rw [Bool.not_eq_true] at hpeq
                                      simpa using hpeq
                          · exact absurd h (by simp)

theorem catLoop_inr_props :
    ∀ (cats : List JValue) (i : Nat) (seen : List JValue) (tw : Fr)
      (seen' : List JValue) (tw' : Fr),
      catLoop cats i seen tw = .ok (.inr (seen', tw')) →
      specTopWeightSum cats tw = some tw' ∧ ∀ c ∈ cats, catPointsConsistent c := by
  intro cats
  induction cats with
  | nil =>
    intro i seen tw seen' tw' h
    simp only [catLoop, Except.ok.injEq, Sum.inr.injEq, Prod.mk.injEq] at h
    rw [show tw' = tw from h.2.symm]
    exact ⟨rfl, by simp⟩
  | cons c rest ih =>
    intro i seen tw seen' tw' h
    unfold catLoop at h
    split at h
    · exact absurd h (by simp)
    · exact absurd h (by simp)
    · rename_i st heq
      obtain ⟨s1, t1⟩ := st
      obtain ⟨⟨ckvs, wv, w, rfl, hwlook, hwf, ht1⟩, hcons⟩ :=
        checkCategory_inr _ _ _ _ _ _ heq
      obtain ⟨hsum, hall⟩ := ih _ _ _ _ _ h
      constructor
      · simp only [specTopWeightSum, hwlook, hwf]
        rw [← ht1]
        exact hsum
      · intro x hx
        rcases List.mem_cons.mp hx with rfl | hx'
        · exact hcons
        · exact hall x hx'

theorem checkLegacyCriterion_inr (i : Nat) (c : JValue) (seen : List JValue)
    (tw : Fr) (seen' : List JValue) (tw' : Fr)
    (h : checkLegacyCriterion i c seen tw = .ok (.inr (seen', tw'))) :
    ∃ ckvs wv w, c = .obj ckvs ∧ jlookup ckvs "weight" = some wv ∧
      pyFloat wv = some w ∧ tw' = frAdd tw w := by
  unfold checkLegacyCriterion at h
  split at h
  · exact absurd h (by simp)
  · split at h
    · split at h
      · exact absurd h (by simp)
      · exact absurd h (by simp)
    · split at h
      · exact absurd h (by simp)
      · rename_i cid hget
        split at h
        · exact absurd h (by simp)
        · split at h
          · exact absurd h (by simp)
          · split at h
            · exact absurd h (by simp)
            · rename_i wv hwget
              split at h
              · exact absurd h (by simp)
              · rename_i w hwf
                split at h
                · exact absurd h (by simp)
                · obtain ⟨ckvs, rfl, _⟩ := pyGetStr_ok _ _ _ hget
                  obtain ⟨ckvs2, heq2, hwlook⟩ := pyGetStr_ok _ _ _ hwget
                  cases heq2
                  simp only [Except.ok.injEq, Sum.inr.injEq, Prod.mk.injEq] at h
                  exact ⟨ckvs, wv, w, rfl, hwlook, hwf, h.2.symm⟩

theorem checkLegacyCriterion_inl (i : Nat) (c : JValue) (seen : List JValue)
    (tw : Fr) (r : VResult)
    (h : checkLegacyCriterion i c seen tw = .ok (.inl r)) : r.1 = false := by
  unfold checkLegacyCriterion at h
  iterate 12 (all_goals (try (split at h)))
  all_goals
    first
    | (simp only [Except.ok.injEq, Sum.inl.injEq] at h; rw [← h]; done)
    | simp at h

theorem legacyLoop_inl :
    ∀ (cs : List JValue) (i : Nat) (seen : List JValue) (tw : Fr) (r : VResult),
      legacyLoop cs i seen tw = .ok (.inl r) → r.1 = false := by
  intro cs
  induction cs with
  | nil => intro i seen tw r h; exact absurd h (by simp [legacyLoop])
  | cons c rest ih =>
    intro i seen tw r h
    unfold legacyLoop at h
    split at h
    · exact absurd h (by simp)
    · rename_i r' heq
      simp only [Except.ok.injEq, Sum.inl.injEq] at h
      rw [← h]
      exact checkLegacyCriterion_inl _ _ _ _ _ heq
    · exact ih _ _ _ _ h

theorem legacyLoop_inr_sum :
    ∀ (cs : List JValue) (i : Nat) (seen : List JValue) (tw : Fr)
      (seen' : List JValue) (tw' : Fr),
      legacyLoop cs i seen tw = .ok (.inr (seen', tw')) →
      specTopWeightSum cs tw = some tw' := by
  intro cs
  induction cs with
  | nil =>
    intro i seen tw seen' tw' h
    simp only [legacyLoop, Except.ok.injEq, Sum.inr.injEq, Prod.mk.injEq] at h
    rw [show tw' = tw from h.2.symm]
    rfl
  | cons c rest ih =>
    intro i seen tw seen' tw' h
    unfold legacyLoop at h
    split at h
    · exact absurd h (by simp)
    · exact absurd h (by simp)
    · rename_i st heq
      obtain ⟨s1, t1⟩ := st
      obtain ⟨ckvs, wv, w, rfl, hwlook, hwf, ht1⟩ :=
        checkLegacyCriterion_inr _ _ _ _ _ _ heq
      have := ih _ _ _ _ _ h
      simp only [specTopWeightSum, hwlook, hwf]
      rw [← ht1]
      exact this

/- Format-level acceptance inversions -/

theorem validateNewFormat_some_false (v : JValue) (r : VResult)
    (h : validateNewFormat v = .ok (some r)) : r.1 = false := by
  unfold validateNewFormat at h
  iterate 10 (all_goals (try (split at h)))
  all_goals
    first
    | (simp only [Except.ok.injEq, Option.some.injEq] at h; rw [← h]; done)
    | (rename_i r' heq
       simp only [Except.ok.injEq, Option.some.injEq] at h
       rw [← h]
       exact catLoop_inl _ _ _ _ _ heq)
    | simp at h

theorem validateOldFormat_some_false (v : JValue) (r : VResult)
    (h : validateOldFormat v = .ok (some r)) : r.1 = false := by
  unfold validateOldFormat at h
  iterate 10 (all_goals (try (split at h)))
  all_goals
    first
    | (simp only [Except.ok.injEq, Option.some.injEq] at h; rw [← h]; done)
    | (rename_i r' heq
       simp only [Except.ok.injEq, Option.some.injEq] at h
       rw [← h]
       exact legacyLoop_inl _ _ _ _ _ heq)
    | simp at h

theorem validateNewFormat_none_inv (kvs : Dict)
    (h : validateNewFormat (.obj kvs) = .ok none) :
    (requiredTopKeysNew.all fun k => hasKey kvs k) = true ∧
    ∃ catList st, jlookup kvs "categories" = some (.arr catList) ∧
      catLoop catList 0 [] ⟨0, 1⟩ = .ok (.inr st) ∧
      (frLe ⟨99, 100⟩ st.2 && frLe st.2 ⟨101, 100⟩) = true := by
  unfold validateNewFormat at h
  rw [allMem_obj] at h
  dsimp only at h
  split at h
  · exact absurd h (by simp)
  · rename_i hpres
    rw [Bool.not_eq_true', Bool.not_eq_false] at hpres
    refine ⟨hpres, ?_⟩
    rw [pyGetStr_obj] at h
    cases hlook : jlookup kvs "categories" with
    | none => rw [hlook] at h; simp at h
    | some catv =>
      rw [hlook] at h
      dsimp only at h
      cases catv with
      | arr catList =>
        dsimp only at h
        split at h
        · simp at h
        · split at h
          · simp at h
          · simp at h
          · rename_i st heq
            split at h
            · simp at h
            · rename_i hrange
              refine ⟨catList, st, rfl, heq, ?_⟩
              rw [Bool.not_eq_true'] at hrange
              rwa [Bool.not_eq_false] at hrange
      | null => simp at h
      | bool b => simp at h
      | int n => simp at h
      | float q => simp at h
      | str sv => simp at h
      | obj okvs => simp at h

theorem validateOldFormat_none_inv (kvs : Dict)
    (h : validateOldFormat (.obj kvs) = .ok none) :
    ∃ critList st, jlookup kvs "criteria" = some (.arr critList) ∧
      legacyLoop critList 0 [] ⟨0, 1⟩ = .ok (.inr st) ∧
      (frLe ⟨99, 100⟩ st.2 && frLe st.2 ⟨101, 100⟩) = true := by
  unfold validateOldFormat at h
  rw [allMem_obj] at h
  dsimp only at h
  split at h
  · exact absurd h (by simp)
  · rw [pyGetStr_obj] at h
    cases hlook : jlookup kvs "criteria" with
    | none => rw [hlook] at h; simp at h
    | some critv =>
      rw [hlook] at h
      dsimp only at h
      cases critv with
      | arr critList =>
        dsimp only at h
        split at h
        · simp at h
        · split at h
          · simp at h
          · simp at h
          · rename_i st heq
            split at h
            · simp at h
            · rename_i hrange
              refine ⟨critList, st, rfl, heq, ?_⟩
              rw [Bool.not_eq_true'] at hrange
              rwa [Bool.not_eq_false] at hrange
      | null => simp at h
      | bool b => simp at h
      | int n => simp at h
      | float q => simp at h
      | str sv => simp at h
      | obj okvs => simp at h

theorem validate_accept_new (kvs : Dict)
    (hcat : hasKey kvs "categories" = true)
    (h : validate_rubric (.obj kvs) = .ok (true, none)) :
    validateNewFormat (.obj kvs) = .ok none := by
  unfold validate_rubric at h
  rw [pyMemStr_obj, pyMemStr_obj, hcat] at h
  dsimp only at h
  rw [if_neg (by simp)] at h
  rw [if_pos rfl] at h
  cases hvf : validateNewFormat (.obj kvs) with
  | error e => rw [hvf] at h; simp at h
  | ok o =>
    cases o with
    | none => rfl
    | some r =>
      rw [hvf] at h
      simp only [Except.ok.injEq] at h
      have := validateNewFormat_some_false _ _ hvf
      rw [h] at this
      simp at this

theorem validate_accept_old (kvs : Dict)
    (hcat : hasKey kvs "categories" = false)
    (hcrit : hasKey kvs "criteria" = true)
    (h : validate_rubric (.obj kvs) = .ok (true, none)) :
    validateOldFormat (.obj kvs) = .ok none := by
  unfold validate_rubric at h
  rw [pyMemStr_obj, pyMemStr_obj, hcat, hcrit] at h
  dsimp only at h
  rw [if_neg (by simp)] at h
  rw [if_neg (by simp)] at h
  cases hvf : validateOldFormat (.obj kvs) with
  | error e => rw [hvf] at h; simp at h
  | ok o =>
    cases o with
    | none => rfl
    | some r =>
      rw [hvf] at h
      simp only [Except.ok.injEq] at h
      have := validateOldFormat_some_false _ _ hvf
      rw [h] at this
      simp at this

/- ### Claims C2 and C3 -/

/-- C2: `validate_rubric` accepts a hierarchical rubric only if every
category's declared `max_points` equals — under Python `==`, strict, no
tolerance — the sum of its criteria's (int-coerced) `max_points`; and the
concrete mismatch (declared 10, criteria summing to 8) is rejected with the
sum-mismatch error message. -/
theorem C2_category_points_consistency :
    (∀ (kvs : Dict) (cats : List JValue),
      validate_rubric (.obj kvs) = .ok (true, none) →
      jlookup kvs "categories" = some (.arr cats) →
      ∀ c ∈ cats, catPointsConsistent c) ∧
    validate_rubric mismatchRubric =
      .ok (false, some (msgSumMismatch (.str "c1") (.int 10) 8)) := by
  constructor
  · intro kvs cats hacc hlook
    have hcat := jlookup_some_hasKey _ _ _ hlook
    have hnone := validate_accept_new kvs hcat hacc
    obtain ⟨-, catList, st, hlook', hloop, -⟩ := validateNewFormat_none_inv kvs hnone
    rw [hlook] at hlook'
    simp only [Option.some.injEq, JValue.arr.injEq] at hlook'
    subst hlook'
    obtain ⟨s, t⟩ := st
    exact (catLoop_inr_props cats 0 [] ⟨0, 1⟩ s t hloop).2
  · rfl

theorem C2_category_points_consistency_witness :
    catPointsConsistent (mkCat "c1" ⟨1, 1⟩ 10 [mkCrit "k1" 10]) :=
  C2_category_points_consistency.1 goodKvs [mkCat "c1" ⟨1, 1⟩ 10 [mkCrit "k1" 10]]
    rfl rfl _ (List.mem_singleton.mpr rfl)

/-- C3: `validate_rubric` accepts (in either format) only if the sum of the
top-level weights — category weights in hierarchical rubrics, criterion
weights in legacy rubrics — lies in [0.99, 1.01]; and the concrete rubric
with category weights 0.5 and 0.4 is rejected with the weight-sum error
message (sum rendered as 0.9000). -/
theorem C3_weight_sum_bounds :
    (∀ (kvs : Dict) (cats : List JValue),
      validate_rubric (.obj kvs) = .ok (true, none) →
      jlookup kvs "categories" = some (.arr cats) →
      ∃ w, specTopWeightSum cats ⟨0, 1⟩ = some w ∧
        frLe ⟨99, 100⟩ w = true ∧ frLe w ⟨101, 100⟩ = true) ∧
    (∀ (kvs : Dict) (crits : List JValue),
      validate_rubric (.obj kvs) = .ok (true, none) →
      hasKey kvs "categories" = false →
      jlookup kvs "criteria" = some (.arr crits) →
      ∃ w, specTopWeightSum crits ⟨0, 1⟩ = some w ∧
        frLe ⟨99, 100⟩ w = true ∧ frLe w ⟨101, 100⟩ = true) ∧
    validate_rubric badWeightRubric = .ok (false, some (msgCatWeightSum ⟨9, 10⟩)) := by
  refine ⟨?_, ?_, rfl⟩
  · intro kvs cats hacc hlook
    have hcat := jlookup_some_hasKey _ _ _ hlook
    have hnone := validate_accept_new kvs hcat hacc
    obtain ⟨-, catList, st, hlook', hloop, hrange⟩ := validateNewFormat_none_inv kvs hnone
    rw [hlook] at hlook'
    simp only [Option.some.injEq, JValue.arr.injEq] at hlook'
    subst hlook'
    obtain ⟨s, t⟩ := st
    rw [Bool.and_eq_true] at hrange
    exact ⟨t, (catLoop_inr_props cats 0 [] ⟨0, 1⟩ s t hloop).1, hrange.1, hrange.2⟩
  · intro kvs crits hacc hcat hlook
    have hcrit := jlookup_some_hasKey _ _ _ hlook
    have hnone := validate_accept_old kvs hcat hcrit hacc
    obtain ⟨critList, st, hlook', hloop, hrange⟩ := validateOldFormat_none_inv kvs hnone
    rw [hlook] at hlook'
    simp only [Option.some.injEq, JValue.arr.injEq] at hlook'
    subst hlook'
    obtain ⟨s, t⟩ := st
    rw [Bool.and_eq_true] at hrange
    exact ⟨t, legacyLoop_inr_sum crits 0 [] ⟨0, 1⟩ s t hloop, hrange.1, hrange.2⟩

theorem C3_weight_sum_bounds_witness :
    ∃ w, specTopWeightSum [mkCat "c1" ⟨1, 1⟩ 10 [mkCrit "k1" 10]] ⟨0, 1⟩ = some w ∧
      frLe ⟨99, 100⟩ w = true ∧ frLe w ⟨101, 100⟩ = true :=
  C3_weight_sum_bounds.1 goodKvs [mkCat "c1" ⟨1, 1⟩ 10 [mkCrit "k1" 10]] rfl rfl

/- ### Claim C9: exception behaviour of the validator -/

/-- A criterion entry that cannot make the validator raise: a dict whose
`criterion_id` (if present) is hashable. -/
def wellShapedCrit (c : JValue) : Prop :=
  ∃ ckvs, c = .obj ckvs ∧ ∀ v, jlookup ckvs "criterion_id" = some v → hashable v = true

/-- A category entry that cannot make the validator raise. -/
def wellShapedCat (c : JValue) : Prop :=
  ∃ ckvs, c = .obj ckvs ∧
    (∀ v, jlookup ckvs "category_id" = some v → hashable v = true) ∧
    (∀ cs, jlookup ckvs "criteria" = some (.arr cs) → ∀ x ∈ cs, wellShapedCrit x)

/-- A legacy criterion entry that cannot make the validator raise. -/
def wellShapedLegacy (c : JValue) : Prop :=
  ∃ ckvs, c = .obj ckvs ∧ ∀ v, jlookup ckvs "id" = some v → hashable v = true

/-- Dictionary inputs on which `validate_rubric` is exception-free: every
category in a `categories` list is a dict with hashable id whose criteria
entries are dicts with hashable ids, and every entry of a `criteria` list is
a dict with hashable id. -/
def WellShaped (kvs : Dict) : Prop :=
  (∀ cats, jlookup kvs "categories" = some (.arr cats) → ∀ c ∈ cats, wellShapedCat c) ∧
  (∀ crits, jlookup kvs "criteria" = some (.arr crits) → ∀ c ∈ crits, wellShapedLegacy c)

theorem checkCriterion_no_throw (cid : JValue) (j : Nat) (c : JValue)
    (seen : List JValue) (pts : Int) (h : wellShapedCrit c) :
    ∃ r, checkCriterion cid j c seen pts = .ok r := by
  obtain ⟨ckvs, rfl, hhash⟩ := h
  unfold checkCriterion
  rw [allMem_obj]
  dsimp only
  by_cases hp : (requiredCritFields.all fun k => hasKey ckvs k) = true
  · rw [hp, if_neg (by simp)]
    have hck : hasKey ckvs "criterion_id" = true := by
      simp only [requiredCritFields, List.all_cons, List.all_nil, Bool.and_eq_true] at hp
      exact hp.1
    have hmk : hasKey ckvs "max_points" = true := by
      simp only [requiredCritFields, List.all_cons, List.all_nil, Bool.and_eq_true] at hp
      exact hp.2.2.2.1
    obtain ⟨cv, hcv⟩ := hasKey_lookup _ _ hck
    obtain ⟨mv, hmv⟩ := hasKey_lookup _ _ hmk
    rw [pyGetStr_obj, hcv]
    dsimp only
    rw [hhash cv hcv, if_neg (by simp)]
    rw [pyGetStr_obj, hmv]
    dsimp only
    iterate 6 (all_goals (first | exact ⟨_, rfl⟩ | split))
    all_goals exact ⟨_, rfl⟩
  · rw [Bool.not_eq_true] at hp
    rw [hp, if_pos (by simp)]
    exact ⟨_, rfl⟩

theorem critLoop_no_throw (cid : JValue) :
    ∀ (cs : List JValue) (j : Nat) (seen : List JValue) (pts : Int),
      (∀ c ∈ cs, wellShapedCrit c) →
      ∃ r, critLoop cid cs j seen pts = .ok r := by
  intro cs
  induction cs with
  | nil => intro j seen pts _; exact ⟨_, rfl⟩
  | cons c rest ih =>
    intro j seen pts hws
    obtain ⟨r, hr⟩ := checkCriterion_no_throw cid j c seen pts (hws c (by simp))
    unfold critLoop
    rw [hr]
    cases r with
    | inl v => exact ⟨_, rfl⟩
    | inr st => exact ih _ _ _ (fun x hx => hws x (by simp [hx]))

theorem checkCategory_no_throw (i : Nat) (c : JValue) (seen : List JValue)
    (tw : Fr) (h : wellShapedCat c) :
    ∃ r, checkCategory i c seen tw = .ok r := by
  obtain ⟨ckvs, rfl, hhash, hcrits⟩ := h
  unfold checkCategory
  rw [allMem_obj]
  dsimp only
  by_cases hp : (requiredCatFields.all fun k => hasKey ckvs k) = true
  · rw [hp, if_neg (by simp)]
    have hck : hasKey ckvs "category_id" = true := by
      simp only [requiredCatFields, List.all_cons, List.all_nil, Bool.and_eq_true] at hp
      exact hp.1
    have hwk : hasKey ckvs "weight" = true := by
      simp only [requiredCatFields, List.all_cons, List.all_nil, Bool.and_eq_true] at hp
      exact hp.2.2.1
    have hmk : hasKey ckvs "max_points" = true := by
      simp only [requiredCatFields, List.all_cons, List.all_nil, Bool.and_eq_true] at hp
      exact hp.2.2.2.1
    have hcrk : hasKey ckvs "criteria" = true := by
      simp only [requiredCatFields, List.all_cons, List.all_nil, Bool.and_eq_true] at hp
      exact hp.2.2.2.2.1
    obtain ⟨cv, hcv⟩ := hasKey_lookup _ _ hck
    obtain ⟨wv, hwv⟩ := hasKey_lookup _ _ hwk
    obtain ⟨mv, hmv⟩ := hasKey_lookup _ _ hmk
    obtain ⟨crv, hcrv⟩ := hasKey_lookup _ _ hcrk
    rw [pyGetStr_obj, hcv]
    dsimp only
    rw [hhash cv hcv, if_neg (by simp)]
    by_cases hs : (seen.any fun x => pyEq x cv) = true
    · rw [hs, if_pos rfl]
      exact ⟨_, rfl⟩
    · rw [Bool.not_eq_true] at hs
      rw [hs, if_neg (by simp)]
      rw [pyGetStr_obj, hwv]
      dsimp only
      cases hwf : pyFloat wv with
      | none => exact ⟨_, rfl⟩
      | some w =>
        dsimp only
        split
        · exact ⟨_, rfl⟩
        · rw [pyGetStr_obj, hmv]
          dsimp only
          cases hint : pyInt mv with
          | none => exact ⟨_, rfl⟩
          | some mp =>
            dsimp only
            split
            · exact ⟨_, rfl⟩
            · rw [pyGetStr_obj, hcrv]
              dsimp only
              cases crv with
              | arr cs =>
                dsimp only
                split
                · exact ⟨_, rfl⟩
                · obtain ⟨res, hres⟩ :=
                    critLoop_no_throw cv cs 0 [] 0 (hcrits cs hcrv)
                  rw [hres]
                  cases res with
                  | inl v => exact ⟨_, rfl⟩
                  | inr st =>
                    dsimp only
                    split
                    · exact ⟨_, rfl⟩
                    · exact ⟨_, rfl⟩
              | null => exact ⟨_, rfl⟩
              | bool b => exact ⟨_, rfl⟩
              | int n => exact ⟨_, rfl⟩
              | float q => exact ⟨_, rfl⟩
              | str sv => exact ⟨_, rfl⟩
              | obj o => exact ⟨_, rfl⟩
  · rw [Bool.not_eq_true] at hp
    rw [hp, if_pos (by simp)]
    exact ⟨_, rfl⟩

theorem catLoop_no_throw :
    ∀ (cats : List JValue) (i : Nat) (seen : List JValue) (tw : Fr),
      (∀ c ∈ cats, wellShapedCat c) →
      ∃ r, catLoop cats i seen tw = .ok r := by
  intro cats
  induction cats with
  | nil => intro i seen tw _; exact ⟨_, rfl⟩
  | cons c rest ih =>
    intro i seen tw hws
    obtain ⟨r, hr⟩ := checkCategory_no_throw i c seen tw (hws c (by simp))
    unfold catLoop
    rw [hr]
    cases r with
    | inl v => exact ⟨_, rfl⟩
    | inr st => exact ih _ _ _ (fun x hx => hws x (by simp [hx]))

theorem checkLegacyCriterion_no_throw (i : Nat) (c : JValue) (seen : List JValue)
    (tw : Fr) (h : wellShapedLegacy c) :
    ∃ r, checkLegacyCriterion i c seen tw = .ok r := by
  obtain ⟨ckvs, rfl, hhash⟩ := h
  unfold checkLegacyCriterion
  rw [allMem_obj]
  dsimp only
  by_cases hp : (requiredLegacyFields.all fun k => hasKey ckvs k) = true
  · rw [hp, if_neg (by simp)]
    have hck : hasKey ckvs "id" = true := by
      simp only [requiredLegacyFields, List.all_cons, List.all_nil, Bool.and_eq_true] at hp
      exact hp.1
    have hwk : hasKey ckvs "weight" = true := by
      simp only [requiredLegacyFields, List.all_cons, List.all_nil, Bool.and_eq_true] at hp
      exact hp.2.2.2.1
    obtain ⟨cv, hcv⟩ := hasKey_lookup _ _ hck
    obtain ⟨wv, hwv⟩ := hasKey_lookup _ _ hwk
    rw [pyGetStr_obj, hcv]
    dsimp only
    rw [hhash cv hcv, if_neg (by simp)]
    rw [pyGetStr_obj, hwv]
    dsimp only
    iterate 4 (all_goals (first | exact ⟨_, rfl⟩ | split))
    all_goals exact ⟨_, rfl⟩
  · rw [Bool.not_eq_true] at hp
    rw [hp, if_pos (by simp)]
    exact ⟨_, rfl⟩

theorem legacyLoop_no_throw :
    ∀ (cs : List JValue) (i : Nat) (seen : List JValue) (tw : Fr),
      (∀ c ∈ cs, wellShapedLegacy c) →
      ∃ r, legacyLoop cs i seen tw = .ok r := by
  intro cs
  induction cs with
  | nil => intro i seen tw _; exact ⟨_, rfl⟩
  | cons c rest ih =>
    intro i seen tw hws
    obtain ⟨r, hr⟩ := checkLegacyCriterion_no_throw i c seen tw (hws c (by simp))
    unfold legacyLoop
    rw [hr]
    cases r with
    | inl v => exact ⟨_, rfl⟩
    | inr st => exact ih _ _ _ (fun x hx => hws x (by simp [hx]))

theorem commonChecks_no_throw (kvs : Dict)
    (hs : hasKey kvs "scale" = true) (ht : hasKey kvs "thresholds" = true) :
    ∃ r, commonChecks (.obj kvs) = .ok r := by
  obtain ⟨sv, hsv⟩ := hasKey_lookup _ _ hs
  obtain ⟨tv, htv⟩ := hasKey_lookup _ _ ht
  unfold commonChecks
  rw [pyGetStr_obj, hsv]
  dsimp only
  cases sv with
  | obj skvs =>
    dsimp only
    by_cases hmin : hasKey skvs "min" = true
    · by_cases hmax : hasKey skvs "max" = true
      · rw [hmin, hmax, if_neg (by simp)]
        obtain ⟨mnv, hmnv⟩ := hasKey_lookup _ _ hmin
        obtain ⟨mxv, hmxv⟩ := hasKey_lookup _ _ hmax
        rw [hmnv, hmxv]
        dsimp only
        cases pyFloat mnv with
        | none => exact ⟨_, rfl⟩
        | some mn =>
          dsimp only
          cases pyFloat mxv with
          | none => exact ⟨_, rfl⟩
          | some mx =>
            dsimp only
            split
            · exact ⟨_, rfl⟩
            · rw [pyGetStr_obj, htv]
              dsimp only
              cases tv with
              | obj tkvs =>
                dsimp only
                by_cases hpk : hasKey tkvs "pass" = true
                · by_cases hrk : hasKey tkvs "revise" = true
                  · rw [hpk, hrk, if_neg (by simp)]
                    obtain ⟨pv, hpv⟩ := hasKey_lookup _ _ hpk
                    obtain ⟨rv, hrv⟩ := hasKey_lookup _ _ hrk
                    rw [hpv, hrv]
                    dsimp only
                    iterate 4 (all_goals (first | exact ⟨_, rfl⟩ | split))
                    all_goals exact ⟨_, rfl⟩
                  · rw [Bool.not_eq_true] at hrk
                    rw [hrk, if_pos (by simp)]
                    exact ⟨_, rfl⟩
                · rw [Bool.not_eq_true] at hpk
                  rw [hpk, if_pos (by simp)]
                  exact ⟨_, rfl⟩
              | null => exact ⟨_, rfl⟩
              | bool b => exact ⟨_, rfl⟩
              | int n => exact ⟨_, rfl⟩
              | float q => exact ⟨_, rfl⟩
              | str s2 => exact ⟨_, rfl⟩
              | arr a2 => exact ⟨_, rfl⟩
      · rw [Bool.not_eq_true] at hmax
        rw [hmax, if_pos (by simp)]
        exact ⟨_, rfl⟩
    · rw [Bool.not_eq_true] at hmin
      rw [hmin, if_pos (by simp)]
      exact ⟨_, rfl⟩
  | null => exact ⟨_, rfl⟩
  | bool b => exact ⟨_, rfl⟩
  | int n => exact ⟨_, rfl⟩
  | float q => exact ⟨_, rfl⟩
  | str s2 => exact ⟨_, rfl⟩
  | arr a2 => exact ⟨_, rfl⟩

theorem validateNewFormat_no_throw (kvs : Dict)
    (h : ∀ cats, jlookup kvs "categories" = some (.arr cats) →
      ∀ c ∈ cats, wellShapedCat c) :
    ∃ o, validateNewFormat (.obj kvs) = .ok o := by
  unfold validateNewFormat
  rw [allMem_obj]
  dsimp only
  by_cases hp : (requiredTopKeysNew.all fun k => hasKey kvs k) = true
  · rw [hp, if_neg (by simp)]
    have hck : hasKey kvs "categories" = true := by
      simp only [requiredTopKeysNew, List.all_cons, List.all_nil, Bool.and_eq_true] at hp
      exact hp.1
    obtain ⟨cv, hcv⟩ := hasKey_lookup _ _ hck
    rw [pyGetStr_obj, hcv]
    dsimp only
    cases cv with
    | arr catList =>
      dsimp only
      split
      · exact ⟨_, rfl⟩
      · obtain ⟨res, hres⟩ := catLoop_no_throw catList 0 [] ⟨0, 1⟩ (h catList hcv)
        rw [hres]
        cases res with
        | inl v => exact ⟨_, rfl⟩
        | inr st =>
          dsimp only
          split
          · exact ⟨_, rfl⟩
          · exact ⟨_, rfl⟩
    | null => exact ⟨_, rfl⟩
    | bool b => exact ⟨_, rfl⟩
    | int n => exact ⟨_, rfl⟩
    | float q => exact ⟨_, rfl⟩
    | str s2 => exact ⟨_, rfl⟩
    | obj o2 => exact ⟨_, rfl⟩
  · rw [Bool.not_eq_true] at hp
    rw [hp, if_pos (by simp)]
    exact ⟨_, rfl⟩

theorem validateOldFormat_no_throw (kvs : Dict)
    (h : ∀ crits, jlookup kvs "criteria" = some (.arr crits) →
      ∀ c ∈ crits, wellShapedLegacy c) :
    ∃ o, validateOldFormat (.obj kvs) = .ok o := by
  unfold validateOldFormat
  rw [allMem_obj]
  dsimp only
  by_cases hp : (requiredTopKeysOld.all fun k => hasKey kvs k) = true
  · rw [hp, if_neg (by simp)]
    have hck : hasKey kvs "criteria" = true := by
      simp only [requiredTopKeysOld, List.all_cons, List.all_nil, Bool.and_eq_true] at hp
      exact hp.1
    obtain ⟨cv, hcv⟩ := hasKey_lookup _ _ hck
    rw [pyGetStr_obj, hcv]
    dsimp only
    cases cv with
    | arr critList =>
      dsimp only
      split
      · exact ⟨_, rfl⟩
      · obtain ⟨res, hres⟩ := legacyLoop_no_throw critList 0 [] ⟨0, 1⟩ (h critList hcv)
        rw [hres]
        cases res with
        | inl v => exact ⟨_, rfl⟩
        | inr st =>
          dsimp only
          split
          · exact ⟨_, rfl⟩
          · exact ⟨_, rfl⟩
    | null => exact ⟨_, rfl⟩
    | bool b => exact ⟨_, rfl⟩
    | int n => exact ⟨_, rfl⟩
    | float q => exact ⟨_, rfl⟩
    | str s2 => exact ⟨_, rfl⟩
    | obj o2 => exact ⟨_, rfl⟩
  · rw [Bool.not_eq_true] at hp
    rw [hp, if_pos (by simp)]
    exact ⟨_, rfl⟩

theorem validateOldFormat_none_keys (kvs : Dict)
    (h : validateOldFormat (.obj kvs) = .ok none) :
    (requiredTopKeysOld.all fun k => hasKey kvs k) = true := by
  unfold validateOldFormat at h
  rw [allMem_obj] at h
  dsimp only at h
  split at h
  · exact absurd h (by simp)
  · rename_i hpres
    rw [Bool.not_eq_true', Bool.not_eq_false] at hpres
    exact hpres

theorem validate_rubric_no_throw (kvs : Dict) (h : WellShaped kvs) :
    ∃ r, validate_rubric (.obj kvs) = .ok r := by
  unfold validate_rubric
  rw [pyMemStr_obj, pyMemStr_obj]
  dsimp only
  by_cases hcat : hasKey kvs "categories" = true
  · rw [hcat, if_neg (by simp), if_pos rfl]
    obtain ⟨o, ho⟩ := validateNewFormat_no_throw kvs h.1
    rw [ho]
    cases o with
    | some r => exact ⟨_, rfl⟩
    | none =>
      have hall := (validateNewFormat_none_inv kvs ho).1
      simp only [requiredTopKeysNew, List.all_cons, List.all_nil, Bool.and_eq_true] at hall
      exact commonChecks_no_throw kvs hall.2.1 hall.2.2.2.1
  · rw [Bool.not_eq_true] at hcat
    rw [hcat]
    by_cases hcrit : hasKey kvs "criteria" = true
    · rw [hcrit, if_neg (by simp), if_neg (by simp)]
      obtain ⟨o, ho⟩ := validateOldFormat_no_throw kvs h.2
      rw [ho]
      cases o with
      | some r => exact ⟨_, rfl⟩
      | none =>
        have hall := validateOldFormat_none_keys kvs ho
        simp only [requiredTopKeysOld, List.all_cons, List.all_nil, Bool.and_eq_true] at hall
        exact commonChecks_no_throw kvs hall.2.1 hall.2.2.2.1
    · rw [Bool.not_eq_true] at hcrit
      rw [hcrit, if_pos (by simp)]
      exact ⟨_, rfl⟩

/- Non-coercible numeric fields produce descriptive invalid results -/

theorem checkCategory_weight_not_number (i : Nat) (ckvs : Dict)
    (seen : List JValue) (tw : Fr) (cid wv : JValue)
    (hall : (requiredCatFields.all fun k => hasKey ckvs k) = true)
    (hcid : jlookup ckvs "category_id" = some cid)
    (hh : hashable cid = true)
    (hseen : (seen.any fun x => pyEq x cid) = false)
    (hwl : jlookup ckvs "weight" = some wv)
    (hwf : pyFloat wv = none) :
    checkCategory i (.obj ckvs) seen tw =
      .ok (.inl (false, some (msgCatWeightNum cid))) := by
  unfold checkCategory
  rw [allMem_obj]
  dsimp only
  rw [hall, if_neg (by simp), pyGetStr_obj, hcid]
  dsimp only
  rw [hh, if_neg (by simp), hseen, if_neg (by simp), pyGetStr_obj, hwl]
  dsimp only
  rw [hwf]

theorem checkCategory_maxpts_not_int (i : Nat) (ckvs : Dict)
    (seen : List JValue) (tw : Fr) (cid wv mpv : JValue) (w : Fr)
    (hall : (requiredCatFields.all fun k => hasKey ckvs k) = true)
    (hcid : jlookup ckvs "category_id" = some cid)
    (hh : hashable cid = true)
    (hseen : (seen.any fun x => pyEq x cid) = false)
    (hwl : jlookup ckvs "weight" = some wv)
    (hwf : pyFloat wv = some w)
    (hrange : (frLt w ⟨0, 1⟩ || frLt ⟨1, 1⟩ w) = false)
    (hml : jlookup ckvs "max_points" = some mpv)
    (hint : pyInt mpv = none) :
    checkCategory i (.obj ckvs) seen tw =
      .ok (.inl (false, some (msgCatMaxPointsInt cid))) := by
  unfold checkCategory
  rw [allMem_obj]
  dsimp only
  rw [hall, if_neg (by simp), pyGetStr_obj, hcid]
  dsimp only
  rw [hh, if_neg (by simp), hseen, if_neg (by simp), pyGetStr_obj, hwl]
  dsimp only
  rw [hwf]
  dsimp only
  rw [hrange, if_neg (by simp), pyGetStr_obj, hml]
  dsimp only
  rw [hint]

theorem commonChecks_scale_not_number (kvs skvs : Dict) (mnv : JValue)
    (hsl : jlookup kvs "scale" = some (.obj skvs))
    (hmk : hasKey skvs "min" = true)
    (hxk : hasKey skvs "max" = true)
    (hml : jlookup skvs "min" = some mnv)
    (hmf : pyFloat mnv = none) :
    commonChecks (.obj kvs) = .ok (false, some "scale min and max must be numbers") := by
  unfold commonChecks
  rw [pyGetStr_obj, hsl]
  dsimp only
  rw [hmk, hxk, if_neg (by simp), hml]
  obtain ⟨mxv, hmxv⟩ := hasKey_lookup _ _ hxk
  rw [hmxv]
  dsimp only
  rw [hmf]

theorem commonChecks_thresh_not_number (kvs skvs tkvs : Dict)
    (mnv mxv pv : JValue) (mn mx : Fr)
    (hsl : jlookup kvs "scale" = some (.obj skvs))
    (hmk : hasKey skvs "min" = true)
    (hxk : hasKey skvs "max" = true)
    (hml : jlookup skvs "min" = some mnv)
    (hxl : jlookup skvs "max" = some mxv)
    (hmf : pyFloat mnv = some mn)
    (hxf : pyFloat mxv = some mx)
    (hlt : frLe mx mn = false)
    (htl : jlookup kvs "thresholds" = some (.obj tkvs))
    (hpk : hasKey tkvs "pass" = true)
    (hrk : hasKey tkvs "revise" = true)
    (hpl : jlookup tkvs "pass" = some pv)
    (hpf : pyFloat pv = none) :
    commonChecks (.obj kvs) = .ok (false, some "thresholds must be numbers") := by
  unfold commonChecks
  rw [pyGetStr_obj, hsl]
  dsimp only
  rw [hmk, hxk, if_neg (by simp), hml, hxl]
  dsimp only
  rw [hmf]
  dsimp only
  rw [hxf]
  dsimp only
  rw [hlt, if_neg (by simp), pyGetStr_obj, htl]
  dsimp only
  rw [hpk, hrk, if_neg (by simp), hpl]
  obtain ⟨rv, hrv⟩ := hasKey_lookup _ _ hrk
  rw [hrv]
  dsimp only
  rw [hpf]

/- Lifting through the format dispatcher -/

theorem validateNewFormat_of_catLoop_inl (kvs : Dict) (catList : List JValue)
    (r : VResult)
    (hall : (requiredTopKeysNew.all fun k => hasKey kvs k) = true)
    (hc : jlookup kvs "categories" = some (.arr catList))
    (hne : catList.isEmpty = false)
    (hloop : catLoop catList 0 [] ⟨0, 1⟩ = .ok (.inl r)) :
    validateNewFormat (.obj kvs) = .ok (some r) := by
  unfold validateNewFormat
  rw [allMem_obj]
  dsimp only
  rw [hall, if_neg (by simp), pyGetStr_obj, hc]
  dsimp only
  rw [hne, if_neg (by simp), hloop]

theorem validate_of_new_some (kvs : Dict) (r : VResult)
    (hcat : hasKey kvs "categories" = true)
    (hnew : validateNewFormat (.obj kvs) = .ok (some r)) :
    validate_rubric (.obj kvs) = .ok r := by
  unfold validate_rubric
  rw [pyMemStr_obj, pyMemStr_obj, hcat]
  dsimp only
  rw [if_neg (by simp), if_pos rfl, hnew]

theorem validate_of_new_none (kvs : Dict) (r : VResult)
    (hcat : hasKey kvs "categories" = true)
    (hnew : validateNewFormat (.obj kvs) = .ok none)
    (hcom : commonChecks (.obj kvs) = .ok r) :
    validate_rubric (.obj kvs) = .ok r := by
  unfold validate_rubric
  rw [pyMemStr_obj, pyMemStr_obj, hcat]
  dsimp only
  rw [if_neg (by simp), if_pos rfl, hnew]
  exact hcom

/- Template rubrics, concrete except for one numeric-field hole -/

def weightHoleCatKvs (w : JValue) : Dict :=
  [("category_id", .str "c1"), ("label", .str "C"), ("weight", w),
   ("max_points", .int 10), ("criteria", .arr [mkCrit "k1" 10])]

def weightHoleKvs (w : JValue) : Dict :=
  [("categories", .arr [.obj (weightHoleCatKvs w)]),
   ("scale", stdScale), ("overall_method", .str "total_points"),
   ("thresholds", stdThresholds)]

def maxPtsHoleCatKvs (v : JValue) : Dict :=
  [("category_id", .str "c1"), ("label", .str "C"), ("weight", .float ⟨1, 1⟩),
   ("max_points", v), ("criteria", .arr [mkCrit "k1" 10])]

def maxPtsHoleKvs (v : JValue) : Dict :=
  [("categories", .arr [.obj (maxPtsHoleCatKvs v)]),
   ("scale", stdScale), ("overall_method", .str "total_points"),
   ("thresholds", stdThresholds)]

def scaleHoleKvs (v : JValue) : Dict :=
  [("categories", .arr [mkCat "c1" ⟨1, 1⟩ 10 [mkCrit "k1" 10]]),
   ("scale", .obj [("min", v), ("max", .int 10)]),
   ("overall_method", .str "total_points"), ("thresholds", stdThresholds)]

def threshHoleKvs (v : JValue) : Dict :=
  [("categories", .arr [mkCat "c1" ⟨1, 1⟩ 10 [mkCrit "k1" 10]]),
   ("scale", stdScale), ("overall_method", .str "total_points"),
   ("thresholds", .obj [("pass", v), ("revise", .int 5)])]

/-- C9 counterexample: `validate_rubric` on the dictionary
`{"categories": [5], "scale": 0, "overall_method": 0, "thresholds": 0}`
raises an uncaught `TypeError` (modelled as `.error`) instead of returning a
`(bool, reason)` pair, because `"category_id" in 5` is not caught by any
`except` clause. -/
theorem C9_validate_raises_on_dict :
    validate_rubric raisingRubric =
      .error "TypeError: argument of type is not iterable" := rfl

/-- C9 (amended): on well-shaped dictionary inputs — category/criterion
entries are dicts whose ids are hashable — `validate_rubric` returns a
`(bool, reason)` pair without raising; and a weight, `max_points`, scale or
threshold field that is not coercible to a number (whatever its type)
produces a descriptive invalid result rather than a propagated exception. -/
theorem C9_no_raise_wellshaped_and_numeric_failures :
    (∀ kvs : Dict, WellShaped kvs → ∃ r, validate_rubric (.obj kvs) = .ok r) ∧
    (∀ w, pyFloat w = none →
      validate_rubric (.obj (weightHoleKvs w)) =
        .ok (false, some (msgCatWeightNum (.str "c1")))) ∧
    (∀ v, pyInt v = none →
      validate_rubric (.obj (maxPtsHoleKvs v)) =
        .ok (false, some (msgCatMaxPointsInt (.str "c1")))) ∧
    (∀ v, pyFloat v = none →
      validate_rubric (.obj (scaleHoleKvs v)) =
        .ok (false, some "scale min and max must be numbers")) ∧
    (∀ v, pyFloat v = none →
      validate_rubric (.obj (threshHoleKvs v)) =
        .ok (false, some "thresholds must be numbers")) := by
  refine ⟨validate_rubric_no_throw, ?_, ?_, ?_, ?_⟩
  · intro w hw
    refine validate_of_new_some _ _ rfl
      (validateNewFormat_of_catLoop_inl _ _ _ rfl rfl rfl ?_)
    unfold catLoop
    rw [checkCategory_weight_not_number 0 (weightHoleCatKvs w) [] ⟨0, 1⟩ (.str "c1") w
      rfl rfl rfl rfl rfl hw]
  · intro v hv
    refine validate_of_new_some _ _ rfl
      (validateNewFormat_of_catLoop_inl _ _ _ rfl rfl rfl ?_)
    unfold catLoop
    rw [checkCategory_maxpts_not_int 0 (maxPtsHoleCatKvs v) [] ⟨0, 1⟩ (.str "c1")
      (.float ⟨1, 1⟩) v ⟨1, 1⟩ rfl rfl rfl rfl rfl rfl rfl rfl hv]
  · intro v hv
    exact validate_of_new_none _ _ rfl rfl
      (commonChecks_scale_not_number _ _ v rfl rfl rfl rfl hv)
  · intro v hv
    exact validate_of_new_none _ _ rfl rfl
      (commonChecks_thresh_not_number _ _ _ (.int 0) (.int 10) v ⟨0, 1⟩ ⟨10, 1⟩
        rfl rfl rfl rfl rfl rfl rfl rfl rfl rfl rfl rfl hv)

theorem C9_no_raise_wellshaped_witness :
    ∃ r, validate_rubric (.obj goodKvs) = .ok r := by
  apply C9_no_raise_wellshaped_and_numeric_failures.1 goodKvs
  constructor
  · intro cats h c hc
    have h' : some (JValue.arr [mkCat "c1" ⟨1, 1⟩ 10 [mkCrit "k1" 10]]) =
        some (.arr cats) := h
    injection h' with h2
    injection h2 with h3
    subst h3
    rcases List.mem_singleton.mp hc with rfl
    refine ⟨_, rfl, ?_, ?_⟩
    · intro v hv
      have hv' : some (JValue.str "c1") = some v := hv
      injection hv' with hv2
      rw [← hv2]
      rfl
    · intro cs hcs x hx
      have hcs' : some (JValue.arr [mkCrit "k1" 10]) = some (.arr cs) := hcs
      injection hcs' with hcs2
      injection hcs2 with hcs3
      subst hcs3
      rcases List.mem_singleton.mp hx with rfl
      refine ⟨_, rfl, ?_⟩
      intro v hv
      have hv' : some (JValue.str "k1") = some v := hv
      injection hv' with hv2
      rw [← hv2]
      rfl
  · intro crits h
    exact absurd h (by simp [jlookup, goodKvs, List.find?])
